import Mathlib

/-!
Verification development for the CTFLLM repository (an LLM-driven CTF solving
agent).  The Python sources under `ctf-agent`, `ctf-agent v2` and
`ctf-agent v3` are shallowly embedded below: Python strings become `List Char`
(`Text`), dictionaries become structures, in-place mutation becomes explicit
state passing, and the regular expressions used by the code are embedded as
deterministic matchers that follow the Python `re` semantics (leftmost search,
greedy/lazy quantifiers with backtracking, `IGNORECASE` where the source sets
it).  Timestamps (`datetime.now()`) and the external tokenizer are omitted
from the data model; tool execution and the model call are oracles passed in
as function arguments, mirroring the uniform `invoke` contract of the spec.
-/

/-- Python strings are modelled as lists of characters. -/
abbrev Text := List Char

/-- Convert a Lean string literal to the `Text` model. -/
def toText (s : String) : Text := s.data

/-- The opening brace character (written numerically). -/
def openBrace : Char := Char.ofNat 123

/-- The closing brace character (written numerically). -/
def closeBrace : Char := Char.ofNat 125

/-- Python `str.lower()` restricted to ASCII (all texts the agent matches
against are ASCII-relevant; `Char.toLower` maps exactly `A`-`Z`). -/
def lowerT (s : Text) : Text := s.map Char.toLower

/-- Python whitespace for `str.strip()` and the regex class `\s`. -/
def pyIsSpace (c : Char) : Bool :=
  c = ' ' || c = '\t' || c = '\n' || c = '\r' || c = '\x0b' || c = '\x0c'

/-- Python `str.strip()`: drop whitespace from both ends. -/
def stripT (s : Text) : Text :=
  ((s.dropWhile pyIsSpace).reverse.dropWhile pyIsSpace).reverse

/-- Python `needle in hay` substring containment. -/
def substrIn (n : Text) : Text → Bool
  | [] => n.isEmpty
  | h :: t => List.isPrefixOf n (h :: t) || substrIn n t

/-- Python `str.startswith`. -/
def startsWithT (p s : Text) : Bool := List.isPrefixOf p s

/-- Python `str.endswith`. -/
def endsWithT (p s : Text) : Bool := List.isSuffixOf p s

/-- Python slice `l[-k:]`: the last `k` elements. -/
def lastN (k : Nat) (l : List α) : List α := l.drop (l.length - k)

/-- Python `sep.join(xs)`. -/
def joinSep (sep : Text) : List Text → Text
  | [] => []
  | [x] => x
  | x :: y :: t => x ++ sep ++ joinSep sep (y :: t)

/-- Python `str(n)` for a natural number. -/
def natToText (n : Nat) : Text := (Nat.repr n).data

/-- Value of a digit string (the regex groups below only produce digits). -/
def digitsToNat (ds : Text) : Nat :=
  ds.foldl (fun acc c => 10 * acc + (c.toNat - 48)) 0

/-- Python `int(s)` on a string: optional surrounding whitespace, optional
sign, then one or more digits (underscore grouping is outside the modelled
subset).  `none` models a raised `ValueError`. -/
def pyToInt (s : Text) : Option Int :=
  let t := stripT s
  match t with
  | '-' :: ds => if ds ≠ [] ∧ ds.all Char.isDigit then some (-(digitsToNat ds : Int)) else none
  | '+' :: ds => if ds ≠ [] ∧ ds.all Char.isDigit then some (digitsToNat ds : Int) else none
  | ds => if ds ≠ [] ∧ ds.all Char.isDigit then some (digitsToNat ds : Int) else none

/-- Case-insensitive character comparison (`re.IGNORECASE`). -/
def ciEq (a b : Char) : Bool := a.toLower = b.toLower

/-- Consume a literal pattern case-insensitively; returns the consumed input
characters (original case) and the rest. -/
def consumeLitCI : Text → Text → Option (Text × Text)
  | [], s => some ([], s)
  | _ :: _, [] => none
  | p :: ps, c :: cs =>
      if ciEq p c then (consumeLitCI ps cs).map (fun pr => (c :: pr.1, pr.2)) else none

/-- Consume a literal pattern case-sensitively. -/
def consumeLitCS : Text → Text → Option (Text × Text)
  | [], s => some ([], s)
  | _ :: _, [] => none
  | p :: ps, c :: cs =>
      if p = c then (consumeLitCS ps cs).map (fun pr => (c :: pr.1, pr.2)) else none

/-- First success of `f` over a list, in order (regex alternation order). -/
def firstSome (l : List α) (f : α → Option β) : Option β :=
  match l with
  | [] => none
  | x :: t => match f x with
    | some b => some b
    | none => firstSome t f

/-- The alternatives of an optional character class `[..]?`: greedy first
(consume one matching character), then the empty alternative. -/
def consumeOpt (cls : Char → Bool) (s : Text) : List (Text × Text) :=
  match s with
  | c :: t => if cls c then [([c], t), ([], s)] else [([], s)]
  | [] => [([], s)]

/-- Character class `[C:]` under `IGNORECASE`. -/
def isCColon (c : Char) : Bool := ciEq c 'c' || c = ':'

/-- Character class `[T:]` under `IGNORECASE`. -/
def isTColon (c : Char) : Bool := ciEq c 't' || c = ':'

/-- Matches `[C:]?[T:]?F` (with `IGNORECASE`) at the head of `s`, following
the regex backtracking order over the two optional classes. -/
def flagPrefixTail (s : Text) : Option (Text × Text) :=
  firstSome (consumeOpt isCColon s) fun p1 =>
    firstSome (consumeOpt isTColon p1.2) fun p2 =>
      match p2.2 with
      | c :: rest => if ciEq 'f' c then some (p1.1 ++ p2.1 ++ [c], rest) else none
      | [] => none

/-- Matches the goal-token regex `pico[C:]?[T:]?F\{[^}]+\}` (`IGNORECASE`,
used by `_detect_flags`, `_extract_flags` and the context optimizer) at the
head of `s`; returns the matched text and the rest of the input. -/
def flagMatchAt (s : Text) : Option (Text × Text) :=
  match consumeLitCI (toText "pico") s with
  | none => none
  | some (a0, r0) =>
    match flagPrefixTail r0 with
    | none => none
    | some (a1, r1) =>
      match r1 with
      | c :: r2 =>
        if c = openBrace then
          let body := r2.takeWhile (fun d => d ≠ closeBrace)
          let r3 := r2.drop body.length
          if body.isEmpty then none
          else
            match r3 with
            | d :: r4 => if d = closeBrace then some (a0 ++ a1 ++ [c] ++ body ++ [d], r4) else none
            | [] => none
        else none
      | [] => none

/-- Worker for `re.findall` on the goal-token pattern: leftmost,
non-overlapping matches; on failure advance one character. -/
def findAllFlagsAux : Nat → Text → List Text
  | 0, _ => []
  | fuel + 1, s =>
    match flagMatchAt s with
    | some (m, rest) => m :: findAllFlagsAux fuel rest
    | none =>
      match s with
      | [] => []
      | _ :: t => findAllFlagsAux fuel t

/-- `re.findall(r'pico[C:]?[T:]?F\{[^}]+\}', s, re.IGNORECASE)`. -/
def findAllFlags (s : Text) : List Text := findAllFlagsAux s.length s

/-- `re.search` on the goal-token pattern: does any match exist? -/
def hasFlagPattern (s : Text) : Bool := !(findAllFlags s).isEmpty

/-- Order-preserving de-duplication with an accumulated `seen` set, mirroring
the Python loop in `_extract_flags` (and `dict.fromkeys` in `_detect_flags`):
keep the first occurrence of each element. -/
def dedupGo [DecidableEq α] (seen : List α) : List α → List α
  | [] => []
  | x :: t => if x ∈ seen then dedupGo seen t else x :: dedupGo (x :: seen) t

/-- Remove duplicates while preserving order of first occurrence. -/
def orderedDedup [DecidableEq α] (l : List α) : List α := dedupGo [] l

/-- `FlagValidator._extract_flags` (ctf-agent v3): all goal-token matches in
order, duplicates removed.  `CTFAgent._detect_flags` (v2) computes the same
candidate list via `dict.fromkeys`. -/
def extract_flags (s : Text) : List Text := orderedDedup (findAllFlags s)

/-- The four status words of the task-update directive, in alternation
order: `(completed|in-progress|failed|pending)`. -/
def statusWords : List Text :=
  [toText "completed", toText "in-progress", toText "failed", toText "pending"]

/-- Match the status alternation (`IGNORECASE`) at the head of `s`. -/
def matchStatus (s : Text) : Option (Text × Text) :=
  firstSome statusWords fun w => consumeLitCI w s

/-- Match `\s+-\s+(completed|in-progress|failed|pending)` at the head of `s`;
returns the status text as matched and the rest.  The two `\s+` are greedy
but deterministic because `-` and the status initials are not whitespace. -/
def arrowSep (s : Text) : Option (Text × Text) :=
  let ws1 := s.takeWhile pyIsSpace
  let r1 := s.drop ws1.length
  if ws1.isEmpty then none
  else
    match r1 with
    | c :: r2 =>
      if c = '-' then
        let ws2 := r2.takeWhile pyIsSpace
        let r3 := r2.drop ws2.length
        if ws2.isEmpty then none else matchStatus r3
      else none
    | [] => none

/-- The lazy group `(.*?)` followed by `\s+-\s+(status)`: try the separator
at the current position first, else extend the body by one character (the
dot does not match a newline).  Returns (body, status, rest). -/
def bodySplit (s : Text) : Option (Text × Text × Text) :=
  match arrowSep s with
  | some (st, rest) => some ([], st, rest)
  | none =>
    match s with
    | [] => none
    | c :: t =>
      if c = '\n' then none
      else (bodySplit t).map fun p => (c :: p.1, p.2.1, p.2.2)

/-- Backtracking for the greedy `\s*` that precedes the lazy body group:
try consuming `k` whitespace characters, from the maximum down to zero. -/
def tryWs (k : Nat) (s : Text) : Option (Text × Text × Text) :=
  match bodySplit (s.drop k) with
  | some r => some r
  | none =>
    match k with
    | 0 => none
    | j + 1 => tryWs j s

/-- Match the task-update directive regex
`→\s*Task:\s*(\d+)\.\s*(.*?)\s+-\s+(completed|in-progress|failed|pending)`
(`IGNORECASE`) at the head of `s`.  Returns the three groups (id digits as a
number, raw description, raw status) and the rest of the input. -/
def arrowMatchAt (s : Text) : Option ((Nat × Text × Text) × Text) :=
  match s with
  | c :: r0 =>
    if c = '→' then
      let r1 := r0.drop (r0.takeWhile pyIsSpace).length
      match consumeLitCI (toText "Task:") r1 with
      | none => none
      | some (_, r2) =>
        let r3 := r2.drop (r2.takeWhile pyIsSpace).length
        let digits := r3.takeWhile Char.isDigit
        let r4 := r3.drop digits.length
        if digits.isEmpty then none
        else
          match r4 with
          | d :: r5 =>
            if d = '.' then
              match tryWs (r5.takeWhile pyIsSpace).length r5 with
              | some (body, st, rest) => some ((digitsToNat digits, body, st), rest)
              | none => none
            else none
          | [] => none
    else none
  | [] => none

/-- Worker for `re.findall` on the task-update directive. -/
def parseArrowAux : Nat → Text → List (Nat × Text × Text)
  | 0, _ => []
  | fuel + 1, s =>
    match arrowMatchAt s with
    | some (groups, rest) => groups :: parseArrowAux fuel rest
    | none =>
      match s with
      | [] => []
      | _ :: t => parseArrowAux fuel t

/-- All task-update directives found in a model response (regex `findall`). -/
def parseArrowAll (s : Text) : List (Nat × Text × Text) := parseArrowAux s.length s

namespace V1

/-- Subtask dict of `ctf-agent/src/agents/task_tree.py` (timestamp omitted). -/
structure Subtask where
  id : Text
  tool : Text
  input : Text
  result : Text
deriving DecidableEq, Repr

/-- Task dict of `task_tree.py` (timestamp omitted). -/
structure Task where
  id : Nat
  description : Text
  status : Text
  subtasks : List Subtask
deriving DecidableEq, Repr

/-- `TaskTree` state of `task_tree.py` (storage path omitted). -/
structure TaskTree where
  challenge_title : Text
  tasks : List Task
  current_task_id : Nat
deriving DecidableEq, Repr

/-- A fresh tree, as built by `TaskTree.__init__`. -/
def emptyTree : TaskTree :=
  { challenge_title := toText "Challenge", tasks := [], current_task_id := 0 }

/-- The find-existing-index-and-mutate loop of v1
`extract_tasks_from_response`, as a first-match update: the first task with
the parsed id is updated in place when its status or description differs
(the increment is 1 exactly when something changed), and when no task
carries the id a new one is appended at the end. -/
def updateOrAppend (taskId : Nat) (desc status : Text) : List Task → List Task × Nat
  | [] => ([{ id := taskId, description := desc, status := status, subtasks := [] }], 1)
  | t :: ts =>
    if t.id = taskId then
      if t.status ≠ status ∨ t.description ≠ desc then
        ({ t with status := status, description := desc } :: ts, 1)
      else (t :: ts, 0)
    else
      let r := updateOrAppend taskId desc status ts
      (t :: r.1, r.2)

/-- One iteration of the extraction loop of v1
`extract_tasks_from_response` over (tasks, count): the parsed description is
stripped and the status lowercased before the update. -/
def applyArrow (acc : List Task × Nat) (u : Nat × Text × Text) : List Task × Nat :=
  let r := updateOrAppend u.1 (stripT u.2.1) (lowerT u.2.2) acc.1
  (r.1, acc.2 + r.2)

/-- `TaskTree.extract_tasks_from_response` (ctf-agent v1): apply every
arrow-notation directive, then sort tasks by id (Python `list.sort`, stable).
Returns the new tree and the extracted count. -/
def extract_tasks_from_response (tree : TaskTree) (resp : Text) : TaskTree × Nat :=
  let r := (parseArrowAll resp).foldl applyArrow (tree.tasks, 0)
  ({ tree with tasks := r.1.insertionSort (fun a b => a.id ≤ b.id) }, r.2)

/-- The dispatch-target index of `TaskTree.add_tool_result`: the last task in
status `in-progress` (the Python loop searches `reversed(self.tasks)`). -/
def lastInProgressIdx (tasks : List Task) : Option Nat :=
  (tasks.enum.filter (fun p => p.2.status = toText "in-progress")).getLast?.map (·.1)

/-- Fallback target of v1 `add_tool_result`: Python `max(tasks, key=id)`
returns the first task attaining the maximal id. -/
def firstMaxIdIdx (tasks : List Task) : Nat :=
  match tasks with
  | [] => 0
  | t :: ts =>
    (ts.enum.foldl
      (fun best p => if p.2.id > best.1 then (p.2.id, p.1 + 1) else best) (t.id, 0)).2

/-- Truncation applied to a stored subtask input in v1 (`[:100] + "..."`). -/
def truncInput100 (s : Text) : Text :=
  if s.length > 100 then s.take 100 ++ toText "..." else s

/-- Truncation applied to a stored subtask result in v1 (`[:200] + "..."`). -/
def truncResult200 (s : Text) : Text :=
  if s.length > 200 then s.take 200 ++ toText "..." else s

/-- `TaskTree.add_tool_result` (ctf-agent v1): skip the reporting tool,
synthesize a default task on an empty tree, then append a subtask to the
last in-progress task, falling back to the task with the highest id. -/
def add_tool_result (tree : TaskTree) (tool_name tool_input tool_result : Text) : TaskTree :=
  if tool_name = toText "report_task_update" then tree
  else
    let tasks0 :=
      if tree.tasks = [] then
        [{ id := 1, description := toText "Solve challenge",
           status := toText "in-progress", subtasks := ([] : List Subtask) }]
      else tree.tasks
    let i :=
      match lastInProgressIdx tasks0 with
      | some j => j
      | none => firstMaxIdIdx tasks0
    match tasks0.get? i with
    | some t =>
      let sub : Subtask :=
        { id := natToText t.id ++ ('.' :: natToText (t.subtasks.length + 1)),
          tool := tool_name, input := truncInput100 tool_input,
          result := truncResult200 tool_result }
      { tree with tasks := tasks0.set i { t with subtasks := t.subtasks ++ [sub] } }
    | none => { tree with tasks := tasks0 }

end V1

/-- JSON values, restricted to the grammar the agent's directives use:
strings without escape sequences, integer numbers, booleans, `null`, arrays
and objects.  This is the modelled subset of Python `json.loads`; inputs
outside the subset are treated as parse failures. -/
inductive Json where
  | jstr (s : Text)
  | jnum (i : Int)
  | jbool (b : Bool)
  | jnull
  | jarr (xs : List Json)
  | jobj (fields : List (Text × Json))

/-- JSON insignificant whitespace. -/
def jsonWs (c : Char) : Bool := c = ' ' || c = '\t' || c = '\n' || c = '\r'

/-- Skip JSON whitespace. -/
def skipWs (s : Text) : Text := s.dropWhile jsonWs

/-- Parse a JSON string body after the opening quote (no escapes in the
modelled subset). -/
def parseJStr (s : Text) : Option (Text × Text) :=
  let body := s.takeWhile (fun c => c ≠ '"' ∧ c ≠ '\\')
  match s.drop body.length with
  | '"' :: rest => some (body, rest)
  | _ => none

mutual

/-- Fuel-based recursive-descent parser for the modelled JSON subset. -/
def parseJVal : Nat → Text → Option (Json × Text)
  | 0, _ => none
  | fuel + 1, s =>
    match skipWs s with
    | '"' :: r => (parseJStr r).map (fun p => (Json.jstr p.1, p.2))
    | '[' :: r =>
      (match skipWs r with
       | ']' :: r2 => some (Json.jarr [], r2)
       | _ => (parseJItems fuel r).map (fun p => (Json.jarr p.1, p.2)))
    | '-' :: r =>
      let ds := r.takeWhile Char.isDigit
      if ds.isEmpty then none else some (Json.jnum (-(digitsToNat ds : Int)), r.drop ds.length)
    | 't' :: r => (consumeLitCS (toText "rue") r).map (fun p => (Json.jbool true, p.2))
    | 'f' :: r => (consumeLitCS (toText "alse") r).map (fun p => (Json.jbool false, p.2))
    | 'n' :: r => (consumeLitCS (toText "ull") r).map (fun p => (Json.jnull, p.2))
    | c :: r =>
      if c = openBrace then
        match skipWs r with
        | d :: r2 => if d = closeBrace then some (Json.jobj [], r2) else
            (parseJFields fuel r).map (fun p => (Json.jobj p.1, p.2))
        | [] => none
      else if c.isDigit then
        let ds := (c :: r).takeWhile Char.isDigit
        some (Json.jnum (digitsToNat ds : Int), (c :: r).drop ds.length)
      else none
    | [] => none

/-- Parse one-or-more comma-separated JSON array items. -/
def parseJItems : Nat → Text → Option (List Json × Text)
  | 0, _ => none
  | fuel + 1, s =>
    match parseJVal fuel s with
    | none => none
    | some (v, r) =>
      match skipWs r with
      | ',' :: r2 => (parseJItems fuel r2).map (fun p => (v :: p.1, p.2))
      | ']' :: r2 => some ([v], r2)
      | _ => none

/-- Parse one-or-more comma-separated JSON object fields. -/
def parseJFields : Nat → Text → Option (List (Text × Json) × Text)
  | 0, _ => none
  | fuel + 1, s =>
    match skipWs s with
    | '"' :: r =>
      match parseJStr r with
      | none => none
      | some (key, r2) =>
        match skipWs r2 with
        | ':' :: r3 =>
          match parseJVal fuel r3 with
          | none => none
          | some (v, r4) =>
            match skipWs r4 with
            | ',' :: r5 => (parseJFields fuel r5).map (fun p => ((key, v) :: p.1, p.2))
            | d :: r5 => if d = closeBrace then some ([(key, v)], r5) else none
            | [] => none
        | _ => none
    | _ => none

end

/-- Python `json.loads` on the modelled subset: parse one value and require
only whitespace to remain. -/
def pyJsonLoads (s : Text) : Option Json :=
  match parseJVal (2 * s.length + 2) s with
  | some (v, rest) => if (skipWs rest).isEmpty then some v else none
  | none => none

/-- Python `dict.get` on a parsed JSON object (duplicate keys: last wins). -/
def objGet (fields : List (Text × Json)) (key : Text) : Option Json :=
  (fields.reverse.find? (fun kv => kv.1 = key)).map (·.2)

/-- Python truthiness of a JSON value (`if not task_id: ...`). -/
def jsonTruthy : Json → Bool
  | .jstr s => !s.isEmpty
  | .jnum i => i ≠ 0
  | .jbool b => b
  | .jnull => false
  | .jarr xs => !xs.isEmpty
  | .jobj fs => !fs.isEmpty

/-- Python `s.split(delim, 1)` helper: text before the first occurrence of
`delim` and the text after it (used for lazy groups bounded by a literal). -/
def splitAtFirst (delim : Text) : Text → Option (Text × Text)
  | [] => if startsWithT delim [] then some ([], []) else none
  | c :: t =>
    if startsWithT delim (c :: t) then some ([], (c :: t).drop delim.length)
    else (splitAtFirst delim t).map (fun p => (c :: p.1, p.2))

/-- Render a Python `int` as text (`f-string` formatting of task ids). -/
def intToText : Int → Text
  | .ofNat n => natToText n
  | .negSucc n => '-' :: natToText (n + 1)

namespace V3

/-- Subtask dict of `ctf-agent v3/src/agents/task_manager.py` (timestamp
omitted); its id is the integer position within the parent task. -/
structure Subtask where
  id : Nat
  tool : Text
  input : Text
  result : Text
deriving DecidableEq, Repr

/-- Task dict of `task_manager.py` (timestamp omitted).  Tasks created via
the JSON fallback also carry `parent_id` and `details`; both are `none` for
arrow-notation tasks, modelling the absent/`None` dictionary entries. -/
structure Task where
  id : Int
  description : Text
  status : Text
  subtasks : List Subtask
  parent_id : Option Text := none
  details : Option Text := none
deriving DecidableEq, Repr

/-- `TaskTree` state of `task_manager.py` (storage path omitted).  This is
also the task tree the v2 agent uses (`ctf_agent.py` imports it from
`.task_manager`). -/
structure TaskTree where
  challenge_title : Text
  tasks : List Task
  current_task_id : Int
deriving DecidableEq, Repr

/-- A fresh tree, as built by `TaskTree.__init__`. -/
def emptyTree : TaskTree :=
  { challenge_title := toText "Challenge", tasks := [], current_task_id := 0 }

/-- The find-existing-index-and-mutate loop of the v3 arrow notation, as a
first-match update over (tasks, watermark): an existing task is updated in
place (status always, description too — when equal this is a no-op), a new
task is appended at the end and the watermark extended to `max`. -/
def updateOrAppendArrow (taskId : Int) (desc status : Text) :
    List Task → Int → List Task × Int
  | [], w =>
    ([{ id := taskId, description := desc, status := status, subtasks := [] }], max w taskId)
  | t :: ts, w =>
    if t.id = taskId then ({ t with status := status, description := desc } :: ts, w)
    else
      let r := updateOrAppendArrow taskId desc status ts w
      (t :: r.1, r.2)

/-- One iteration of the arrow-notation loop of v3
`extract_tasks_from_response` over (tasks, watermark, count); the count
always increments. -/
def applyArrow (acc : List Task × Int × Nat) (u : Nat × Text × Text) : List Task × Int × Nat :=
  let r := updateOrAppendArrow (u.1 : Int) (stripT u.2.1) (lowerT u.2.2) acc.1 acc.2.1
  (r.1, r.2, acc.2.2 + 1)

/-- A single update object of the JSON fallback notation, with the raw JSON
field values (`update.get(...)` results). -/
structure JUpdate where
  task_id : Option Json
  description : Option Json
  status : Option Json
  parent_id : Option Json
  details : Option Json

/-- Read the five fields of an update object. -/
def toJUpdate (fields : List (Text × Json)) : JUpdate :=
  { task_id := objGet fields "task_id".data,
    description := objGet fields "description".data,
    status := objGet fields "status".data,
    parent_id := objGet fields "parent_id".data,
    details := objGet fields "details".data }

/-- Resolve the task id of a JSON update against the watermark, mirroring
lines 107-117 of `task_manager.py`: a missing or falsy `task_id`
auto-allocates `watermark+1`; `int(task_id)` extends the watermark on
success and auto-allocates on `ValueError`; a `TypeError` (list/dict value)
is uncaught and aborts the extraction (`none`). -/
def resolveTaskId (w : Int) (tid : Option Json) : Option (Int × Int) :=
  match tid with
  | none => some (w + 1, w + 1)
  | some v =>
    if !jsonTruthy v then some (w + 1, w + 1)
    else
      match v with
      | .jstr s =>
        match pyToInt s with
        | some i => some (max w i, i)
        | none => some (w + 1, w + 1)
      | .jnum i => some (max w i, i)
      | .jbool _ => some (max w 1, 1)
      | _ => none

/-- Read an optional text field of an update; JSON `null` behaves like the
Python value `None`.  Non-string values are outside the modelled subset. -/
def optTextField : Option Json → Option (Option Text)
  | none => some none
  | some (.jstr s) => some (some s)
  | some .jnull => some none
  | some _ => none

/-- The find-existing-index-and-mutate loop of the v3 JSON fallback, as a
first-match update: an existing task gets status, description and details
replaced (its `parent_id` is left alone — the source's `dict.update` does
not set it), otherwise a full new task is appended at the end. -/
def updateOrAppendJson (taskId : Int) (desc status : Text) (pid det : Option Text) :
    List Task → List Task
  | [] => [{ id := taskId, description := desc, status := status,
             subtasks := [], parent_id := pid, details := det }]
  | t :: ts =>
    if t.id = taskId then { t with status := status, description := desc, details := det } :: ts
    else t :: updateOrAppendJson taskId desc status pid det ts

/-- `update.get("description", "Unknown task")`: a missing field defaults,
a non-string value is outside the modelled subset. -/
def descField : Option Json → Option Text
  | none => some ("Unknown task".data)
  | some (.jstr s) => some s
  | some _ => none

/-- `update.get("status", "pending")`: a missing field defaults, a
non-string value is outside the modelled subset. -/
def statusField : Option Json → Option Text
  | none => some ("pending".data)
  | some (.jstr s) => some s
  | some _ => none

/-- Apply one JSON update to (tree, count); `none` models an uncaught
exception that aborts the surrounding loops (state is kept by the caller).
Mirrors lines 106-148 of `task_manager.py`. -/
def applyJsonUpdate (tree : TaskTree) (count : Nat) (u : JUpdate) : Option (TaskTree × Nat) :=
  match resolveTaskId tree.current_task_id u.task_id, descField u.description,
        statusField u.status, optTextField u.parent_id, optTextField u.details with
  | some (w1, taskId), some d, some st, some pid, some det =>
    some ({ tree with
            current_task_id := w1
            tasks := updateOrAppendJson taskId d st pid det tree.tasks },
          count + 1)
  | _, _, _, _, _ => none

/-- Process the elements of one `updates` array; the boolean reports whether
an uncaught exception aborted the processing. -/
def processUpdates (tree : TaskTree) (count : Nat) : List Json → TaskTree × Nat × Bool
  | [] => (tree, count, false)
  | e :: rest =>
    match e with
    | .jobj fs =>
      match applyJsonUpdate tree count (toJUpdate fs) with
      | some (tree1, count1) => processUpdates tree1 count1 rest
      | none => (tree, count, true)
    | _ => (tree, count, true)

/-- Process one cleaned, parsed JSON batch (`data` in the source): the
`updates` value must be iterable over dict-like elements, otherwise the
iteration raises and aborts.  Empty strings and empty objects iterate zero
times. -/
def processBatchVal (tree : TaskTree) (count : Nat) : Json → TaskTree × Nat × Bool
  | .jobj fs =>
    match objGet fs ("updates".data) with
    | none => (tree, count, false)
    | some (.jarr us) => processUpdates tree count us
    | some (.jstr []) => (tree, count, false)
    | some (.jobj []) => (tree, count, false)
    | some _ => (tree, count, true)
  | _ => (tree, count, true)

/-- Strip a task-manager batch and remove Markdown code fences, mirroring
lines 96-101 of `task_manager.py`. -/
def cleanJsonInput (s : Text) : Text :=
  let s1 := stripT s
  let s2 := if startsWithT ("```json".data) s1 then s1.drop 7 else s1
  let s3 := if endsWithT ("```".data) s2 then s2.take (s2.length - 3) else s2
  stripT s3

/-- Worker for `re.findall(r'<tool>task_manager</tool>\s*<input>(.*?)</input>', s, re.DOTALL)`. -/
def tmBatchesAux : Nat → Text → List Text
  | 0, _ => []
  | fuel + 1, s =>
    match consumeLitCS ("<tool>task_manager</tool>".data) s with
    | some (_, r1) =>
      let r2 := r1.drop (r1.takeWhile pyIsSpace).length
      match consumeLitCS ("<input>".data) r2 with
      | some (_, r3) =>
        match splitAtFirst ("</input>".data) r3 with
        | some (body, rest) => body :: tmBatchesAux fuel rest
        | none =>
          match s with
          | [] => []
          | _ :: t => tmBatchesAux fuel t
      | none =>
        match s with
        | [] => []
        | _ :: t => tmBatchesAux fuel t
    | none =>
      match s with
      | [] => []
      | _ :: t => tmBatchesAux fuel t

/-- All task-manager tool-call bodies found in a response. -/
def tmBatches (s : Text) : List Text := tmBatchesAux s.length s

/-- Process the JSON fallback batches in order; a batch that fails to parse
is skipped (`json.JSONDecodeError` is caught and the loop continues), while
an uncaught exception inside a batch stops all remaining work (it is caught
only by the `except Exception` around the whole fallback). -/
def processBatches (tree : TaskTree) (count : Nat) : List Text → TaskTree × Nat
  | [] => (tree, count)
  | b :: rest =>
    match pyJsonLoads (cleanJsonInput b) with
    | none => processBatches tree count rest
    | some v =>
      match processBatchVal tree count v with
      | (tree1, count1, false) => processBatches tree1 count1 rest
      | (tree1, count1, true) => (tree1, count1)

/-- Sort tasks by id (Python `tasks.sort(key=lambda x: x.get("id", 0))`). -/
def sortTasks (tasks : List Task) : List Task :=
  tasks.insertionSort (fun a b => a.id ≤ b.id)

/-- `TaskTree.extract_tasks_from_response` (ctf-agent v3, also used by v2):
arrow-notation directives first; the JSON fallback only when none matched;
tasks sorted by id at the end.  Returns the new tree and the count. -/
def extract_tasks_from_response (tree : TaskTree) (resp : Text) : TaskTree × Nat :=
  let a := (parseArrowAll resp).foldl applyArrow (tree.tasks, tree.current_task_id, 0)
  let tree1 : TaskTree := { tree with tasks := a.1, current_task_id := a.2.1 }
  if a.2.2 = 0 then
    let b := processBatches tree1 0 (V3.tmBatches resp)
    ({ b.1 with tasks := sortTasks b.1.tasks }, b.2)
  else
    ({ tree1 with tasks := sortTasks tree1.tasks }, a.2.2)

/-- The dispatch-target index of v3 `add_tool_result`: the last in-progress
task, falling back to the last task. -/
def lastInProgressIdx (tasks : List Task) : Option Nat :=
  (tasks.enum.filter (fun p => p.2.status = ("in-progress".data))).getLast?.map (·.1)

/-- Truncation applied to a stored subtask input in v3 (`[:200] + "..."`). -/
def truncInput200 (s : Text) : Text :=
  if s.length > 200 then s.take 200 ++ ("...".data) else s

/-- Truncation applied to a stored subtask result in v3 (`[:500] + "..."`). -/
def truncResult500 (s : Text) : Text :=
  if s.length > 500 then s.take 500 ++ ("...".data) else s

/-- `TaskTree.add_tool_result` (ctf-agent v3, also used by v2): skip the
`task_manager` tool, synthesize a default task on an empty tree (resetting
the watermark to 1), then append a subtask to the last in-progress task,
falling back to the last task. -/
def add_tool_result (tree : TaskTree) (tool_name tool_input tool_result : Text) : TaskTree :=
  if tool_name = ("task_manager".data) then tree
  else
    let (tasks0, w0) :=
      if tree.tasks = [] then
        ([{ id := 1, description := ("Challenge analysis and solving".data),
            status := ("in-progress".data), subtasks := ([] : List Subtask) }], (1 : Int))
      else (tree.tasks, tree.current_task_id)
    let i :=
      match lastInProgressIdx tasks0 with
      | some j => j
      | none => tasks0.length - 1
    match tasks0.get? i with
    | some t =>
      let sub : Subtask :=
        { id := t.subtasks.length + 1, tool := tool_name,
          input := truncInput200 tool_input, result := truncResult500 tool_result }
      { tree with
        current_task_id := w0
        tasks := tasks0.set i { t with subtasks := t.subtasks ++ [sub] } }
    | none => { tree with current_task_id := w0, tasks := tasks0 }

/-- Status icon of `get_display_tree` (v3). -/
def statusIcon (status : Text) : Text :=
  if status = ("completed".data) then "[✓]".data
  else if status = ("in-progress".data) then "[→]".data
  else if status = ("failed".data) then "[✗]".data
  else if status = ("pending".data) then "[~]".data
  else "[?]".data

/-- Subtask status glyph of `get_display_tree`, derived from the result. -/
def subtaskGlyph (result : Text) : Text :=
  if substrIn ("success".data) (lowerT result) || substrIn ("✓".data) result then "✓".data
  else if substrIn ("error".data) (lowerT result) || substrIn ("✗".data) result
          || substrIn ("failed".data) (lowerT result) then "✗".data
  else "?".data

/-- Display line(s) of one task with its subtasks (`task_manager` subtasks
are skipped; results truncated to 80 characters for display). -/
def taskDisplayLines (t : Task) : List Text :=
  (statusIcon t.status ++ (' ' :: intToText t.id) ++ (". ".data) ++ t.description) ::
  (t.subtasks.filter (fun st => st.tool ≠ ("task_manager".data))).map (fun st =>
    let res := if st.result.length > 80 then st.result.take 80 ++ ("...".data) else st.result
    ("    ".data) ++ natToText st.id ++ (". Used ".data) ++ st.tool
      ++ (' ' :: subtaskGlyph st.result) ++ (" - ".data) ++ res)

/-- `TaskTree.get_display_tree` (v3); `get_tree_display` is its alias. -/
def get_display_tree (tree : TaskTree) : Text :=
  if tree.tasks = [] then "📋 No tasks yet".data
  else
    joinSep ("\n".data)
      ((("📋 ".data ++ tree.challenge_title ++ (" - Task Progress".data)) ::
        [List.replicate 50 '=']) ++ (tree.tasks.map taskDisplayLines).flatten)

end V3

/-- Search an at-position matcher at every position of the text
(`re.search` for the simple importance patterns below). -/
def anySuffix (m : Text → Bool) : Text → Bool
  | [] => m []
  | c :: t => m (c :: t) || anySuffix m t

/-- Consume a case-sensitive literal and return the rest. -/
def afterLit (lit s : Text) : Option Text := (consumeLitCS lit s).map (·.2)

/-- Consume a case-insensitive literal and return the rest. -/
def afterLitCI (lit s : Text) : Option Text := (consumeLitCI lit s).map (·.2)

/-- Greedy `\s+` (the following patterns start with non-whitespace). -/
def wsPlus (s : Text) : Option Text :=
  match s with
  | c :: t => if pyIsSpace c then some ((c :: t).dropWhile pyIsSpace) else none
  | [] => none

/-- Is the head of the text one of the given characters? -/
def headIn (cs : List Char) (s : Text) : Bool :=
  match s with
  | c :: _ => c ∈ cs
  | [] => false

/-- Optional `s?` with regex backtracking (greedy first). -/
def optS (s : Text) (k : Text → Bool) : Bool :=
  match s with
  | 's' :: t => k t || k ('s' :: t)
  | _ => k s

/-- `flag\s*[=:]` at the current position. -/
def pFlagAssign (s : Text) : Bool :=
  match afterLit ("flag".data) s with
  | some r => headIn ['=', ':'] (r.dropWhile pyIsSpace)
  | none => false

/-- `error\s*:` at the current position. -/
def pErrorColon (s : Text) : Bool :=
  match afterLit ("error".data) s with
  | some r => headIn [':'] (r.dropWhile pyIsSpace)
  | none => false

/-- `(decoded|output|result)\s*[:=]`-shaped patterns at the current position. -/
def pWordAssign (w : Text) (s : Text) : Bool :=
  match afterLit w s with
  | some r => headIn [':', '='] (r.dropWhile pyIsSpace)
  | none => false

/-- `extracted\s+characters?\s*[:=]` at the current position. -/
def pExtractedChars (s : Text) : Bool :=
  match afterLit ("extracted".data) s with
  | some r1 =>
    match wsPlus r1 with
    | some r2 =>
      match afterLit ("character".data) r2 with
      | some r3 => optS r3 (fun r4 => headIn [':', '='] (r4.dropWhile pyIsSpace))
      | none => false
    | none => false
  | none => false

/-- `characters?\s+from` at the current position. -/
def pCharsFrom (s : Text) : Bool :=
  match afterLit ("character".data) s with
  | some r1 =>
    optS r1 (fun r2 =>
      match wsPlus r2 with
      | some r3 => (afterLit ("from".data) r3).isSome
      | none => false)
  | none => false

/-- `potential\s+flag` at the current position. -/
def pPotentialFlag (s : Text) : Bool :=
  match afterLit ("potential".data) s with
  | some r1 =>
    match wsPlus r1 with
    | some r2 => (afterLit ("flag".data) r2).isSome
    | none => false
  | none => false

/-- `ContextOptimizer._is_important_result` (ctf-agent v2): the importance
pattern list applied to the lowercased result, or length above 200. -/
def isImportantResult (result : Text) : Bool :=
  if result.isEmpty then false
  else
    let lo := lowerT result
    hasFlagPattern lo
    || anySuffix pFlagAssign lo
    || substrIn ("ctf".data ++ [openBrace]) lo
    || anySuffix pErrorColon lo
    || substrIn ("traceback".data) lo
    || substrIn ("exception".data) lo
    || substrIn ("failed".data) lo
    || anySuffix pExtractedChars lo
    || anySuffix (pWordAssign ("decoded".data)) lo
    || anySuffix (pWordAssign ("output".data)) lo
    || anySuffix (pWordAssign ("result".data)) lo
    || anySuffix pCharsFrom lo
    || substrIn ("combination".data) lo
    || anySuffix pPotentialFlag lo
    || result.length > 200

/-- `ContextOptimizer._is_truncated_in_tree`: the first 80 characters of the
result (stripped) appear in a stored subtask result of the recent tasks that
is strictly shorter than the full result. -/
def isTruncatedInTree (result : Text) (recent_tasks : List V3.Task) : Bool :=
  let pre := stripT (result.take 80)
  recent_tasks.any fun t => t.subtasks.any fun st =>
    !st.result.isEmpty && substrIn pre st.result && decide (result.length > st.result.length)

/-- `ContextOptimizer._get_truncated_important_results`: the most recent
result is guaranteed whenever it exceeds 80 characters (stripped) and is
truncated in the tree; the second and third most recent are added when also
important. -/
def getTruncatedImportantResults (tree : V3.TaskTree) (recent : List Text) : List Text :=
  if recent.isEmpty then []
  else
    let recent_tasks := if tree.tasks.length ≥ 2 then lastN 2 tree.tasks else tree.tasks
    let base :=
      match recent.getLast? with
      | some latest =>
        if (stripT latest).length > 80 ∧ isTruncatedInTree latest recent_tasks then [latest]
        else []
      | none => []
    base ++ ((lastN 3 recent).dropLast.filter fun r =>
      !(r.isEmpty || decide ((stripT r).length ≤ 80))
        && isImportantResult r && isTruncatedInTree r recent_tasks)

/-- Status icon used by `_get_recent_summary` (pending renders as `[ ]`). -/
def optimizerStatusIcon (status : Text) : Text :=
  if status = ("completed".data) then "[✓]".data
  else if status = ("in-progress".data) then "[→]".data
  else if status = ("failed".data) then "[✗]".data
  else if status = ("pending".data) then "[ ]".data
  else "[?]".data

/-- `ContextOptimizer._get_recent_summary`: one line per recent task (last
3) plus a single 80-character preview of its last subtask's result. -/
def getRecentSummary (tree : V3.TaskTree) : Text :=
  if tree.tasks = [] then "No tasks completed yet".data
  else
    joinSep ("\n".data) ((lastN 3 tree.tasks).flatMap fun t =>
      let l1 := optimizerStatusIcon t.status ++ (' ' :: intToText t.id) ++ (". ".data) ++ t.description
      match t.subtasks.getLast? with
      | some st =>
        if !(stripT st.result).isEmpty then
          let clean := if st.result.length > 80 then st.result.take 80 ++ ("...".data) else st.result
          [l1, ("   -> ".data) ++ clean]
        else [l1]
      | none => [l1])

/-- The error-keyword set of `should_send_full_context`. -/
def errorWords : List Text :=
  ["error".data, "failed".data, "exception".data, "traceback".data]

/-- `ContextOptimizer.should_send_full_context` (ctf-agent v2): full context
every 5th round, with few tasks, or when a recent result shows a goal token
or an error keyword. -/
def should_send_full_context (current_round task_count : Nat) (recent : List Text) : Bool :=
  if current_round % 5 = 0 then true
  else if task_count ≤ 3 then true
  else recent.any fun r =>
    !r.isEmpty && (hasFlagPattern r || errorWords.any fun w => substrIn w (lowerT r))

/-- The dictionary returned by `get_optimized_task_context` (the spec's
`ContextSnapshot`); the `empty` snapshot carries no `tasks_included` key. -/
structure Snapshot where
  context_type : Text
  content : Text
  token_estimate : Nat
  tasks_included : Option Nat
  truncated_results : List Text
deriving DecidableEq, Repr

/-- `ContextOptimizer.get_optimized_task_context` (ctf-agent v2): `empty`
for a missing tree (fixed estimate 20), otherwise `full` or `recent` with
`token_estimate = len(content) // 4`. -/
def get_optimized_task_context (tree : Option V3.TaskTree) (current_round : Nat)
    (recent : List Text) : Snapshot :=
  match tree with
  | none =>
    { context_type := "empty".data, content := "No tasks recorded yet".data,
      token_estimate := 20, tasks_included := none, truncated_results := [] }
  | some t =>
    let task_count := t.tasks.length
    if should_send_full_context current_round task_count recent then
      let full := V3.get_display_tree t
      { context_type := "full".data, content := full,
        token_estimate := full.length / 4, tasks_included := some task_count,
        truncated_results := getTruncatedImportantResults t recent }
    else
      let rc := getRecentSummary t
      { context_type := "recent".data, content := rc,
        token_estimate := rc.length / 4, tasks_included := some (min 3 task_count),
        truncated_results := [] }

/-- The literal prefix filtered out by `get_continue_prompt` before a tool
result is guaranteed to the model. -/
def successMarker : Text := openBrace :: ("\"success\"".data)

/-- The guaranteed-results channel of `CTFAgent.get_continue_prompt`
(ctf-agent v2, lines 1501-1527): the latest tool result is always appended
first (unless whitespace-only or starting with the raw-JSON marker); in
`recent` mode all earlier valid results follow, in `full` mode the
optimizer's truncated important results except the latest follow. -/
def filteredResults (ctx : Snapshot) (tool_results : List Text) : List Text :=
  match tool_results.getLast? with
  | none => []
  | some latest =>
    let base :=
      if !(stripT latest).isEmpty && !(startsWithT successMarker latest) then [latest] else []
    if ctx.context_type = ("recent".data) then
      base ++ tool_results.dropLast.filter (fun r =>
        !(stripT r).isEmpty && !(startsWithT successMarker r))
    else if ctx.context_type = ("full".data) then
      base ++ ctx.truncated_results.filter (fun r => r ≠ latest)
    else base

/-- The literal `picoCTF{` (case preserved) with the brace appended. -/
def picoOpenCS : Text := ("picoCTF".data) ++ [openBrace]

/-- `picoCTF\{[Xx]{4,}\}` at the current position (`IGNORECASE`). -/
def phAllX (s : Text) : Bool :=
  match afterLitCI picoOpenCS s with
  | some r =>
    let run := r.takeWhile (fun c => c = 'x' || c = 'X')
    decide (run.length ≥ 4) && headIn [closeBrace] (r.drop run.length)
  | none => false

/-- A character counted by the class `[^a-zA-Z0-9_]`. -/
def nonWordChar (c : Char) : Bool := !(c.isAlphanum || c = '_')

/-- `picoCTF\{[^a-zA-Z0-9_]{3,}\}` at the current position: after at least
three non-word characters a closing brace must follow, and since the brace
itself is a non-word character the greedy run backtracks into it. -/
def phSpecialOnly (s : Text) : Bool :=
  match afterLitCI picoOpenCS s with
  | some r => ((r.takeWhile nonWordChar).drop 3).any (fun c => c = closeBrace)
  | none => false

/-- `picoCTF\{[^}]*WORD[^}]*\}` at the current position (`IGNORECASE`). -/
def phBodyContains (word : Text) (s : Text) : Bool :=
  match afterLitCI picoOpenCS s with
  | some r =>
    let seg := r.takeWhile (fun c => c ≠ closeBrace)
    substrIn word (lowerT seg) && headIn [closeBrace] (r.drop seg.length)
  | none => false

/-- Case-insensitive substring search (a fully literal `re.search` under
`IGNORECASE`). -/
def ciSubstrIn (n hay : Text) : Bool := substrIn (lowerT n) (lowerT hay)

/-- The group of `re.search(r'picoCTF\{([^}]+)\}', flag)` (case-sensitive)
matched at the current position. -/
def picoContentAt (s : Text) : Option Text :=
  match afterLit picoOpenCS s with
  | some r =>
    let body := r.takeWhile (fun c => c ≠ closeBrace)
    if body.isEmpty then none
    else if headIn [closeBrace] (r.drop body.length) then some body else none
  | none => none

/-- The group of the first (leftmost) match of `picoCTF\{([^}]+)\}`. -/
def firstPicoContent : Text → Option Text
  | [] => none
  | c :: t =>
    match picoContentAt (c :: t) with
    | some b => some b
    | none => firstPicoContent t

/-- `is_placeholder_flag` of `ctf-agent v2/main.py`: the eleven invalid
patterns (searched with `IGNORECASE`), then the length check on the body of
the first case-sensitive `picoCTF{...}` match. -/
def is_placeholder_flag (flag : Text) : Bool :=
  ciSubstrIn (picoOpenCS ++ ("...".data) ++ [closeBrace]) flag
  || ciSubstrIn (picoOpenCS ++ ("content".data) ++ [closeBrace]) flag
  || ciSubstrIn (picoOpenCS ++ [openBrace] ++ ("...".data) ++ [closeBrace, closeBrace]) flag
  || anySuffix phAllX flag
  || ciSubstrIn (picoOpenCS ++ ("flag".data) ++ [closeBrace]) flag
  || ciSubstrIn (picoOpenCS ++ ("FLAG".data) ++ [closeBrace]) flag
  || ciSubstrIn (picoOpenCS ++ ("your_flag".data) ++ [closeBrace]) flag
  || anySuffix phSpecialOnly flag
  || anySuffix (phBodyContains ("placeholder".data)) flag
  || anySuffix (phBodyContains ("example".data)) flag
  || anySuffix (phBodyContains ("template".data)) flag
  || (match firstPicoContent flag with
      | some body => decide (body.length < 3) || decide (body.length > 100)
      | none => false)

/-- Python `str.split(delim)` (full split, non-empty delimiter). -/
def pySplitAux : Nat → Text → Text → List Text
  | 0, _, s => [s]
  | fuel + 1, delim, s =>
    match splitAtFirst delim s with
    | some (pre, rest) => pre :: pySplitAux fuel delim rest
    | none => [s]

/-- Python `s.split(delim)`. -/
def pySplit (delim s : Text) : List Text := pySplitAux (s.length + 1) delim s

/-- `CTFAgent._parse_tool_result` (ctf-agent v2): a well-formed JSON object
with a `success` field is unwrapped (trimmed output on success, prefixed
error otherwise); anything else is stripped of common quote/byte wrappers,
with a sentinel for empty results.  Values whose `output`/`error` fields are
not strings are outside the modelled subset and take the string path. -/
def parseToolResult (obs : Text) : Text :=
  let viaJson : Option Text :=
    match pyJsonLoads obs with
    | some (.jobj fs) =>
      match objGet fs ("success".data) with
      | some sv =>
        if jsonTruthy sv then
          match objGet fs ("output".data) with
          | some (.jstr s) => some (stripT s)
          | none => some []
          | some _ => none
        else
          match objGet fs ("error".data) with
          | some (.jstr s) => some (("ERROR: ".data) ++ s)
          | none => some ("ERROR: ".data)
          | some _ => none
      | none => none
    | _ => none
  match viaJson with
  | some r => r
  | none =>
    let r0 := stripT obs
    let r1 :=
      if startsWithT ['\''] r0 && endsWithT ['\''] r0 then (r0.drop 1).dropLast else r0
    let r2 :=
      if startsWithT ('b' :: ['"']) r1 || startsWithT ('b' :: ['\'']) r1
      then (r1.drop 2).dropLast else r1
    if r2.isEmpty then "No output generated".data else r2

/-- `CTFAgent._parse_tool_calls` (ctf-agent v2): split the response on
`<tool>` and, per segment, require a closing tag and an input pair; a call
missing its terminators is skipped. -/
def parseToolCalls (resp : Text) : List (Text × Text) :=
  ((pySplit ("<tool>".data) resp).drop 1).filterMap fun seg =>
    if substrIn ("</tool>".data) seg then
      let name := stripT ((pySplit ("</tool>".data) seg).headD [])
      if substrIn ("<input>".data) seg && substrIn ("</input>".data) seg then
        let part1 := ((pySplit ("<input>".data) seg).drop 1).headD []
        some (name, stripT ((pySplit ("</input>".data) part1).headD []))
      else none
    else none

/-- `CTFAgent._execute_tool` (ctf-agent v2): look the tool up by name (a
missing tool yields an error result, not an exception) and normalize its raw
observation.  `runTool` is the external tool oracle. -/
def executeTool (runTool : Text → Option (Text → Text)) (name input : Text) : Text :=
  match runTool name with
  | none => ("ERROR: Tool '".data) ++ name ++ ("' not found".data)
  | some f => parseToolResult (f input)

/-- The truncation marker appended by the size guard of `interact`. -/
def truncMarker : Text :=
  "\n\n... (content truncated due to size - focus on key information above)".data

/-- The size guard of `CTFAgent.interact` (ctf-agent v2, lines 1056-1084):
estimate tokens of the input plus all chat-memory messages as
`total length // 4`; above 120,000 the input is cut to 100,000 characters
plus a marker (only when longer than 100,000) and only the last 10 chat
messages are kept (only when more than 10 exist). -/
def sizeGuard (user_input : Text) (messages : List Text) : Text × List Text :=
  let total := messages.foldl (fun acc m => acc ++ m) user_input
  let estimated := total.length / 4
  if 120000 < estimated then
    let input1 :=
      if 100000 < user_input.length then user_input.take 100000 ++ truncMarker else user_input
    let msgs1 := if 10 < messages.length then lastN 10 messages else messages
    (input1, msgs1)
  else (user_input, messages)

/-- One structured tool call of the LangChain response
(`intermediate_steps`): tool name, tool input and raw observation. -/
structure Step where
  tool : Text
  input : Text
  observation : Text

/-- Outcome of the model call inside `interact`: either the response text
with its structured tool calls, or a raised exception (network/auth/timeout)
with its message. -/
inductive LLMResult where
  | failure (msg : Text)
  | success (output : Text) (steps : List Step)

/-- The text returned by the `except` branch of `interact`. -/
def roundFailedMsg (n : Nat) (msg : Text) : Text :=
  ("Round ".data) ++ natToText n ++ (" failed: ".data) ++ msg

/-- `ConversationRound` dataclass of ctf-agent v2 (token counts and the
timestamp, which come from the external tokenizer and clock, are omitted). -/
structure ConversationRound where
  round_number : Nat
  human_input : Text
  ai_response : Text
  tools_used : List Text
  input_source : Text
deriving DecidableEq, Repr

/-- The mutable agent state read and written by `interact`: round counter,
task tree, chat memory, conversation ledger and the rolling per-round
results used by the next round's context construction. -/
structure AgentState where
  current_round : Nat
  task_tree : Option V3.TaskTree
  messages : List Text
  conversation_history : List ConversationRound
  last_tool_results : List Text
  last_flag_candidate : Option Text

/-- The agent state at session start. -/
def initAgentState : AgentState :=
  { current_round := 0, task_tree := none, messages := [],
    conversation_history := [], last_tool_results := [],
    last_flag_candidate := none }

/-- The structured-steps tool loop of `interact`: normalize each
observation, collect names and results and feed the task tree. -/
def runStructuredSteps (tree : Option V3.TaskTree) (steps : List Step) :
    List Text × List Text × Option V3.TaskTree :=
  steps.foldl
    (fun acc st =>
      let display := parseToolResult st.observation
      (acc.1 ++ [st.tool], acc.2.1 ++ [display],
       acc.2.2.map (fun tr => V3.add_tool_result tr st.tool st.input display)))
    ([], [], tree)

/-- The inline `<tool>` tag loop of `interact`. -/
def runInlineCalls (runTool : Text → Option (Text → Text)) (tree : Option V3.TaskTree)
    (calls : List (Text × Text)) : List Text × List Text × Option V3.TaskTree :=
  calls.foldl
    (fun acc c =>
      let display := executeTool runTool c.1 c.2
      (acc.1 ++ [c.1], acc.2.1 ++ [display],
       acc.2.2.map (fun tr => V3.add_tool_result tr c.1 c.2 display)))
    ([], [], tree)

/-- `CTFAgent.interact` (ctf-agent v2, lines 1035-1205): increment the round
counter, run the size guard, call the model (outcome `res`), extract task
updates, dispatch structured tool calls (inline markup only as fallback),
run flag detection over the response and tool output, append the chat
messages and the round record, and return the response text.  A model-call
failure is caught: the error text is returned and only the counter and the
size-guard's memory mutation survive. -/
def interact (runTool : Text → Option (Text → Text)) (st : AgentState)
    (user_input0 input_source : Text) (res : LLMResult) : AgentState × Text :=
  let n := st.current_round + 1
  let g := sizeGuard user_input0 st.messages
  match res with
  | .failure m =>
    ({ st with current_round := n, messages := g.2 }, roundFailedMsg n m)
  | .success out steps =>
    let tree1 := st.task_tree.map (fun t => (V3.extract_tasks_from_response t out).1)
    let d :=
      if !steps.isEmpty then runStructuredSteps tree1 steps
      else if substrIn ("<tool>".data) out && substrIn ("</tool>".data) out then
        runInlineCalls runTool tree1 (parseToolCalls out)
      else ([], [], tree1)
    let allText := out ++ (' ' :: joinSep [' '] d.2.1)
    let cands := orderedDedup (findAllFlags allText)
    let lastFlag :=
      match cands.getLast? with
      | some c => some c
      | none => st.last_flag_candidate
    let record : ConversationRound :=
      { round_number := n, human_input := g.1, ai_response := out,
        tools_used := d.1, input_source := input_source }
    ({ current_round := n
       task_tree := d.2.2
       messages := g.2 ++ [g.1, out]
       conversation_history := st.conversation_history ++ [record]
       last_tool_results := d.2.1
       last_flag_candidate := lastFlag }, out)

/-- Run a whole session: one `interact` call per (input, source, outcome)
triple. -/
def runCalls (runTool : Text → Option (Text → Text)) (st : AgentState)
    (calls : List (Text × Text × LLMResult)) : AgentState :=
  calls.foldl (fun s c => (interact runTool s c.1 c.2.1 c.2.2).1) st

/-- The round numbers that get recorded when the calls are played from a
round counter at `start`: each call consumes one number, only successful
calls record it. -/
def roundNums (start : Nat) : List (Text × Text × LLMResult) → List Nat
  | [] => []
  | c :: cs =>
    match c.2.2 with
    | .success _ _ => (start + 1) :: roundNums (start + 1) cs
    | .failure _ => roundNums (start + 1) cs

/-- A session tree holding exactly two tasks (the spec's "few tasks"
scenario at round 7). -/
def sampleTwoTaskTree : V3.TaskTree :=
  { challenge_title := "Challenge".data
    current_task_id := 2
    tasks :=
      [{ id := 1, description := "Inspect the binary".data,
         status := "completed".data, subtasks := [] },
       { id := 2, description := "Decode the output".data,
         status := "in-progress".data, subtasks := [] }] }

/-- A v1 tree with an in-progress and a pending task, used to instantiate
the frame property of `add_tool_result`. -/
def sampleV1Tree : V1.TaskTree :=
  { challenge_title := "Challenge".data
    current_task_id := 0
    tasks :=
      [{ id := 1, description := "Recon".data, status := "in-progress".data, subtasks := [] },
       { id := 2, description := "Exploit".data, status := "pending".data, subtasks := [] }] }

/-- An oversized model input: 500,000 characters, an estimated 125,000
tokens. -/
def bigInput : Text := List.replicate 500000 'a'

/-- A fallback task-update directive without a `task_id`. -/
def noIdDirective : Text :=
  "<tool>task_manager</tool><input>\x7b\"updates\": [\x7b\"description\": \"Recon\", \"status\": \"pending\"\x7d]\x7d</input>".data

/-- A fallback task-update directive whose explicit `task_id` is not
parseable as an integer: `int("abc")` raises `ValueError`, so the source
auto-allocates a fresh id exactly as in the missing-id case. -/
def strIdDirective : Text :=
  "<tool>task_manager</tool><input>\x7b\"updates\": [\x7b\"task_id\": \"abc\", \"description\": \"Recon\", \"status\": \"pending\"\x7d]\x7d</input>".data

/-- A fallback update object carrying the explicit integer task id 5. -/
def jNumUpdate : V3.JUpdate :=
  { task_id := some (Json.jnum 5)
    description := some (Json.jstr "Recon".data)
    status := some (Json.jstr "pending".data)
    parent_id := none
    details := none }

/-- The tree produced by applying `jNumUpdate` once to the fresh tree. -/
def jNumTree : V3.TaskTree :=
  { challenge_title := toText "Challenge"
    current_task_id := 5
    tasks := [{ id := 5, description := "Recon".data, status := "pending".data,
                subtasks := [] }] }

/-- The scenario directive for task 1 in progress. -/
def directiveInProgress : Text := "→ Task: 1. Analyze the binary - in-progress".data

/-- The scenario directive for task 1 completed. -/
def directiveCompleted : Text := "→ Task: 1. Analyze the binary - completed".data

/-- A directive for task id 5 on a fresh tree. -/
def directiveTask5 : Text := "→ Task: 5. Recon - pending".data

/-- A tool result that is longer than 80 characters, starts with the
raw-JSON marker `{"success"` and therefore falls through every branch of
the guaranteed-results channel. -/
def awkwardLatest : Text := successMarker ++ List.replicate 590 'a'

/-- The task tree that stores `awkwardLatest` only in 500-character
truncated form (the storage truncation of `add_tool_result`). -/
def awkwardTree : V3.TaskTree :=
  { challenge_title := "Challenge".data
    current_task_id := 1
    tasks :=
      [{ id := 1, description := "Run the extraction script".data,
         status := "in-progress".data,
         subtasks := [{ id := 1, tool := "code_executor".data, input := "run".data,
                        result := V3.truncResult500 awkwardLatest }] }] }

/-- Index of the first occurrence of an element (used to state the
order-of-first-occurrence property of the candidate list). -/
def firstIdx [DecidableEq α] : List α → α → Nat
  | [], _ => 0
  | x :: t, a => if x = a then 0 else firstIdx t a + 1

/-!
Theorems.  Each claim of the specification gets one theorem (with a witness
or a counterexample where required); the preceding lemmas are shared
infrastructure.
-/

/-- A substring is never longer than the text containing it. -/
theorem substrIn_length {n h : Text} (hs : substrIn n h = true) : n.length ≤ h.length := by
  induction h with
  | nil =>
    simp [substrIn, List.isEmpty_iff] at hs
    simp [hs]
  | cons c t ih =>
    rw [substrIn] at hs
    rcases Bool.or_eq_true_iff.mp hs with h1 | h2
    · rw [List.isPrefixOf_iff_prefix] at h1
      exact h1.length_le
    · exact (ih h2).trans (by simp)

/-- Consuming a literal from a text that starts with it succeeds and leaves
the rest. -/
theorem consumeLitCS_append (l r : Text) : consumeLitCS l (l ++ r) = some (l, r) := by
  induction l with
  | nil => rfl
  | cons p ps ih => simp [consumeLitCS, ih]

/-- `takeWhile` over `l ++ x :: r` stops exactly at `x` when all of `l`
satisfies the predicate and `x` does not. -/
theorem takeWhile_append_cons {p : Char → Bool} {l : Text} (hl : ∀ c ∈ l, p c = true)
    {x : Char} (hx : p x = false) (r : Text) :
    (l ++ x :: r).takeWhile p = l := by
  induction l with
  | nil => simp [List.takeWhile_cons, hx]
  | cons c t ih =>
    have hc : p c = true := hl c (by simp)
    simp only [List.cons_append, List.takeWhile_cons, hc, if_true]
    rw [ih (fun d hd => hl d (by simp [hd]))]

/-- Membership in the seen-set de-duplication. -/
theorem dedupGo_mem [DecidableEq α] (seen l : List α) (a : α) :
    a ∈ dedupGo seen l ↔ a ∈ l ∧ a ∉ seen := by
  induction l generalizing seen with
  | nil => simp [dedupGo]
  | cons x t ih =>
    by_cases hx : x ∈ seen
    · simp only [dedupGo, if_pos hx, ih]
      constructor
      · rintro ⟨h1, h2⟩; exact ⟨by simp [h1], h2⟩
      · rintro ⟨h1, h2⟩
        rcases List.mem_cons.mp h1 with rfl | h1
        · exact absurd hx h2
        · exact ⟨h1, h2⟩
    · simp only [dedupGo, if_neg hx, List.mem_cons, ih]
      constructor
      · rintro (rfl | ⟨h1, h2⟩)
        · exact ⟨Or.inl rfl, hx⟩
        · exact ⟨Or.inr h1, fun hs => h2 (by simp [hs])⟩
      · rintro ⟨rfl | h1, h2⟩
        · exact Or.inl rfl
        · by_cases hax : a = x
          · exact Or.inl hax
          · exact Or.inr ⟨h1, by simp [hax, h2]⟩

/-- The seen-set de-duplication produces no duplicates. -/
theorem dedupGo_nodup [DecidableEq α] (seen l : List α) : (dedupGo seen l).Nodup := by
  induction l generalizing seen with
  | nil => simp [dedupGo]
  | cons x t ih =>
    by_cases hx : x ∈ seen
    · simpa [dedupGo, if_pos hx] using ih seen
    · rw [dedupGo, if_neg hx]
      refine List.nodup_cons.mpr ⟨fun hmem => ?_, ih (x :: seen)⟩
      exact ((dedupGo_mem _ _ _).mp hmem).2 (by simp)

/-- The seen-set de-duplication keeps elements in order of their first
occurrence in the input. -/
theorem dedupGo_pairwise [DecidableEq α] (l seen : List α) :
    (dedupGo seen l).Pairwise (fun a b => firstIdx l a < firstIdx l b) := by
  induction l generalizing seen with
  | nil => simp [dedupGo]
  | cons x t ih =>
    have transport : ∀ (s : List α), x ∈ s →
        (dedupGo s t).Pairwise (fun a b => firstIdx (x :: t) a < firstIdx (x :: t) b) := by
      intro s hxs
      refine (ih s).imp_of_mem ?_
      intro a b ha hb hab
      have hna : x ≠ a := fun h =>
        ((dedupGo_mem s t a).mp ha).2 (h ▸ hxs)
      have hnb : x ≠ b := fun h =>
        ((dedupGo_mem s t b).mp hb).2 (h ▸ hxs)
      simp only [firstIdx, if_neg hna, if_neg hnb]
      omega
    by_cases hx : x ∈ seen
    · rw [dedupGo, if_pos hx]
      exact transport seen hx
    · rw [dedupGo, if_neg hx]
      refine List.pairwise_cons.mpr ⟨?_, transport (x :: seen) (by simp)⟩
      intro b hb
      have hnb : x ≠ b := fun h =>
        ((dedupGo_mem _ t b).mp hb).2 (by simp [h])
      simp [firstIdx, hnb]

/-- A text in which the goal-token pattern or an error keyword occurs is not
empty. -/
theorem flag_or_keyword_nonempty {r : Text}
    (h : hasFlagPattern r = true ∨ ∃ w ∈ errorWords, substrIn w (lowerT r) = true) :
    r.isEmpty = false := by
  cases r with
  | cons c t => rfl
  | nil =>
    exfalso
    rcases h with h | ⟨w, hw, hsub⟩
    · exact absurd h (by decide)
    · have hlen := substrIn_length hsub
      simp only [lowerT, List.map_nil, List.length_nil, Nat.le_zero,
        List.length_eq_zero] at hlen
      subst hlen
      simp [errorWords] at hw

/-- C5: `shouldSendFull(round, taskCount, recentResults)` is true exactly
when the round is a multiple of the 5-round interval, or at most 3 tasks
exist, or some recent result matches the goal-token pattern or contains an
error keyword from \x7berror, failed, exception, traceback\x7d; and with 2 tasks
at round 7 the produced context kind is `full` despite the interval not
being met. -/
theorem C5_should_send_full :
    (∀ (current_round task_count : Nat) (recent : List Text),
       should_send_full_context current_round task_count recent = true ↔
         (current_round % 5 = 0 ∨ task_count ≤ 3 ∨
          ∃ r ∈ recent, hasFlagPattern r = true ∨
            ∃ w ∈ errorWords, substrIn w (lowerT r) = true))
    ∧ (get_optimized_task_context (some sampleTwoTaskTree) 7 []).context_type = "full".data := by
  constructor
  · intro cr tc rs
    unfold should_send_full_context
    split_ifs with h1 h2
    · simp [h1]
    · simp [h2]
    · rw [List.any_eq_true]
      constructor
      · rintro ⟨r, hr, hcond⟩
        rcases Bool.and_eq_true_iff.mp hcond with ⟨-, hcond⟩
        rcases Bool.or_eq_true_iff.mp hcond with hf | he
        · exact Or.inr (Or.inr ⟨r, hr, Or.inl hf⟩)
        · rcases List.any_eq_true.mp he with ⟨w, hw, hsub⟩
          exact Or.inr (Or.inr ⟨r, hr, Or.inr ⟨w, hw, hsub⟩⟩)
      · rintro (h | h | ⟨r, hr, hc⟩)
        · exact absurd h h1
        · exact absurd h h2
        · refine ⟨r, hr, ?_⟩
          rw [Bool.and_eq_true_iff]
          refine ⟨by rw [flag_or_keyword_nonempty hc]; rfl, ?_⟩
          rw [Bool.or_eq_true_iff]
          rcases hc with hf | ⟨w, hw, hsub⟩
          · exact Or.inl hf
          · exact Or.inr (List.any_eq_true.mpr ⟨w, hw, hsub⟩)
  · decide

/-- C6 counterexample: the `empty` snapshot has content
`No tasks recorded yet` (21 characters, so `len // 4 = 5`) but the fixed
token estimate 20 — `tokenEstimate = len(content) // 4` fails for the
`empty` kind. -/
theorem C6_counterexample :
    (get_optimized_task_context none 1 []).context_type = "empty".data
    ∧ (get_optimized_task_context none 1 []).token_estimate = 20
    ∧ (get_optimized_task_context none 1 []).content.length = 21
    ∧ (get_optimized_task_context none 1 []).token_estimate ≠
        (get_optimized_task_context none 1 []).content.length / 4 := by
  decide

/-- C6 (amended): every snapshot of kind `recent` or `full` satisfies
`tokenEstimate = len(content) // 4`; the `empty` snapshot instead carries
the fixed estimate 20. -/
theorem C6_token_estimate (tree : Option V3.TaskTree) (r : Nat) (recent : List Text) :
    ((get_optimized_task_context tree r recent).context_type ≠ ("empty".data) →
      (get_optimized_task_context tree r recent).token_estimate =
        (get_optimized_task_context tree r recent).content.length / 4)
    ∧ ((get_optimized_task_context tree r recent).context_type = ("empty".data) →
      (get_optimized_task_context tree r recent).token_estimate = 20) := by
  cases tree with
  | none => exact ⟨fun h => absurd rfl h, fun _ => rfl⟩
  | some t =>
    unfold get_optimized_task_context
    by_cases hs : should_send_full_context r t.tasks.length recent = true
    · simp only [hs, if_true]
      exact ⟨fun _ => trivial, fun h => absurd h (by decide)⟩
    · simp only [Bool.not_eq_true] at hs
      simp only [hs, Bool.false_eq_true, if_false]
      exact ⟨fun _ => trivial, fun h => absurd h (by decide)⟩

/-- C6 witness: a concrete non-empty snapshot whose token estimate is the
quarter of its content length. -/
theorem C6_token_estimate_witness :
    (get_optimized_task_context (some sampleTwoTaskTree) 1 []).token_estimate =
      (get_optimized_task_context (some sampleTwoTaskTree) 1 []).content.length / 4 :=
  (C6_token_estimate (some sampleTwoTaskTree) 1 []).1 (by decide)

/-- C8: the goal-token detector finds `picoCTF\x7babc_123\x7d`, a
separator-substituted prefix variant and case variants, returns `[]` for
text without a bracketed token, and generally returns the matches of the
pattern with duplicates removed, ordered by first occurrence. -/
theorem C8_goal_token_detector :
    extract_flags ("the flag is picoCTF\x7babc_123\x7d !".data) = [("picoCTF\x7babc_123\x7d").data]
    ∧ extract_flags ("pico:TF\x7babc_123\x7d".data) = [("pico:TF\x7babc_123\x7d").data]
    ∧ extract_flags ("PICOCTF\x7bABC_123\x7d".data) = [("PICOCTF\x7bABC_123\x7d").data]
    ∧ extract_flags ("there is no bracketed goal token here".data) = []
    ∧ ∀ t : Text,
        (extract_flags t).Nodup
        ∧ (∀ f, f ∈ extract_flags t ↔ f ∈ findAllFlags t)
        ∧ (extract_flags t).Pairwise
            (fun a b => firstIdx (findAllFlags t) a < firstIdx (findAllFlags t) b) := by
  refine ⟨by decide, by decide, by decide, by decide, fun t => ⟨?_, fun f => ?_, ?_⟩⟩
  · exact dedupGo_nodup [] (findAllFlags t)
  · rw [extract_flags, orderedDedup, dedupGo_mem]
    simp
  · exact dedupGo_pairwise (findAllFlags t) []

/-- C9 counterexample: `picoctf\x7bab\x7d` is a goal-token candidate (the
detector is case-insensitive) whose brace-enclosed body has 2 characters,
yet `is_placeholder_flag` returns `false` — the claim's length rule does not
hold for every candidate. -/
theorem C9_counterexample :
    extract_flags ("picoctf".data ++ openBrace :: ("ab".data) ++ [closeBrace])
        = ["picoctf".data ++ openBrace :: ("ab".data) ++ [closeBrace]]
    ∧ is_placeholder_flag ("picoctf".data ++ openBrace :: ("ab".data) ++ [closeBrace]) = false := by
  decide

/-- C9 (amended): `is_placeholder_flag` rejects `picoCTF\x7b...\x7d`,
`picoCTF\x7bFLAG\x7d` and `picoCTF\x7bxxxx\x7d`, accepts
`picoCTF\x7bthisislikelyreal_42\x7d`, and rejects every candidate written with
the exact case-sensitive prefix `picoCTF` whose body is shorter than 3 or
longer than 100 characters. -/
theorem C9_placeholder :
    is_placeholder_flag (picoOpenCS ++ ("...".data) ++ [closeBrace]) = true
    ∧ is_placeholder_flag (picoOpenCS ++ ("FLAG".data) ++ [closeBrace]) = true
    ∧ is_placeholder_flag (picoOpenCS ++ ("xxxx".data) ++ [closeBrace]) = true
    ∧ is_placeholder_flag (picoOpenCS ++ ("thisislikelyreal_42".data) ++ [closeBrace]) = false
    ∧ ∀ body : Text, closeBrace ∉ body → body ≠ [] →
        (body.length < 3 ∨ 100 < body.length) →
        is_placeholder_flag (picoOpenCS ++ body ++ [closeBrace]) = true := by
  refine ⟨by decide, by decide, by decide, by decide, ?_⟩
  intro body hnb hne hlen
  have htw : (body ++ [closeBrace]).takeWhile (fun c => decide (c ≠ closeBrace)) = body := by
    refine takeWhile_append_cons ?_ (by simp) []
    intro c hc
    exact decide_eq_true (fun h => hnb (h ▸ hc))
  have hbe : body.isEmpty = false := by
    cases body with
    | nil => exact absurd rfl hne
    | cons c t => rfl
  have hdrop : (body ++ [closeBrace]).drop body.length = [closeBrace] :=
    List.drop_left body [closeBrace]
  have h1 : afterLit picoOpenCS (picoOpenCS ++ body ++ [closeBrace])
      = some (body ++ [closeBrace]) := by
    rw [List.append_assoc]
    unfold afterLit
    rw [consumeLitCS_append]
    rfl
  have hat : picoContentAt (picoOpenCS ++ body ++ [closeBrace]) = some body := by
    unfold picoContentAt
    rw [h1]
    simp only [htw, hbe, Bool.false_eq_true, if_false, hdrop, headIn]
    simp
  have hfirst : firstPicoContent (picoOpenCS ++ body ++ [closeBrace]) = some body := by
    rw [show picoOpenCS ++ body ++ [closeBrace]
        = 'p' :: (("icoCTF".data ++ [openBrace]) ++ body ++ [closeBrace]) by
      simp [picoOpenCS, openBrace]]
    rw [firstPicoContent]
    rw [show 'p' :: (("icoCTF".data ++ [openBrace]) ++ body ++ [closeBrace])
        = picoOpenCS ++ body ++ [closeBrace] by simp [picoOpenCS, openBrace]]
    rw [hat]
  unfold is_placeholder_flag
  rw [hfirst]
  rcases hlen with h | h <;> simp [h]

/-- C9 witness: the length rule applied to the two-character body `ab`. -/
theorem C9_placeholder_witness :
    is_placeholder_flag (picoOpenCS ++ ("ab".data) ++ [closeBrace]) = true :=
  C9_placeholder.2.2.2.2 ("ab".data) (by decide) (by decide) (by decide)

set_option maxRecDepth 100000 in
/-- C1 counterexample: the most recent tool result `awkwardLatest` is 600
characters long, stored in the Task Tree only in 500-character truncated
form, and its round produces a `full` context — yet, because it starts with
the raw-JSON marker, it appears neither in the rendered context nor in the
guaranteed-results channel of the next prompt. -/
theorem C1_counterexample :
    80 < awkwardLatest.length
    ∧ (awkwardTree.tasks.map fun t => t.subtasks.map fun st => st.result)
        = [[V3.truncResult500 awkwardLatest]]
    ∧ V3.truncResult500 awkwardLatest ≠ awkwardLatest
    ∧ (get_optimized_task_context (some awkwardTree) 1 [awkwardLatest]).context_type
        = "full".data
    ∧ substrIn awkwardLatest
        (get_optimized_task_context (some awkwardTree) 1 [awkwardLatest]).content = false
    ∧ awkwardLatest ∉
        filteredResults (get_optimized_task_context (some awkwardTree) 1 [awkwardLatest])
          [awkwardLatest] := by
  have hlat : awkwardLatest.length = 600 := by
    simp [awkwardLatest, successMarker]
  have hfull : (get_optimized_task_context (some awkwardTree) 1 [awkwardLatest]).context_type
      = "full".data := rfl
  refine ⟨by omega, rfl, ?_, hfull, ?_, ?_⟩
  · intro h
    have := congrArg List.length h
    rw [hlat] at this
    have h503 : (V3.truncResult500 awkwardLatest).length = 503 := by
      rw [V3.truncResult500, if_pos (by omega)]
      simp [hlat]
    omega
  · by_contra hsub
    rw [Bool.not_eq_false] at hsub
    have hle := substrIn_length hsub
    rw [hlat] at hle
    have hcl : (get_optimized_task_context (some awkwardTree) 1 [awkwardLatest]).content.length
        < 600 := by decide
    omega
  · intro hmem
    have hpre : startsWithT successMarker awkwardLatest = true := by
      rw [startsWithT, List.isPrefixOf_iff_prefix, awkwardLatest]
      exact List.prefix_append _ _
    rw [filteredResults] at hmem
    simp only [List.getLast?_singleton] at hmem
    rw [hpre] at hmem
    simp only [Bool.not_true, Bool.and_false, Bool.false_eq_true, if_false] at hmem
    rw [hfull] at hmem
    have hne1 : ("full".data : Text) = ("recent".data : Text) ↔ False := by decide
    have hne2 : ("full".data : Text) = ("full".data : Text) ↔ True := by decide
    simp only [hne1, if_false, hne2, if_true, List.nil_append] at hmem
    rcases List.mem_filter.mp hmem with ⟨-, hcond⟩
    simp at hcond

/-- C1 (amended): the most recent tool result is included in full in the
guaranteed-results channel for every context kind — including when it was
truncated in the tree — provided it is not whitespace-only and does not
start with the raw-JSON marker; those two classes of results are the only
ones the channel drops. -/
theorem C1_latest_result_guaranteed (tree : Option V3.TaskTree) (round : Nat)
    (results : List Text) (latest : Text)
    (hl : results.getLast? = some latest)
    (hs : stripT latest ≠ [])
    (hp : startsWithT successMarker latest = false) :
    latest ∈ filteredResults (get_optimized_task_context tree round results) results := by
  rw [filteredResults, hl]
  have h1 : (!(stripT latest).isEmpty && !(startsWithT successMarker latest)) = true := by
    simp [hp, List.isEmpty_iff, hs]
  simp only [h1, if_true]
  split_ifs <;> simp

/-- C1 witness: a plain short result is guaranteed to reach the next
prompt. -/
theorem C1_latest_result_guaranteed_witness :
    ("hello world".data) ∈ filteredResults
      (get_optimized_task_context none 1 [("hello world".data)]) [("hello world".data)] :=
  C1_latest_result_guaranteed none 1 [("hello world".data)] ("hello world".data)
    rfl (by decide) (by decide)

/-- C2 counterexample: a model-call failure on the very first round
consumes round number 1 and returns the error text, but appends no
`ConversationRound` — the ledger stays empty, so the recorded rounds do not
include the failed round as the claim demands. -/
theorem C2_counterexample :
    (interact (fun _ => none) initAgentState ("hi".data) ("agent".data)
        (.failure ("boom".data))).1.current_round = 1
    ∧ (interact (fun _ => none) initAgentState ("hi".data) ("agent".data)
        (.failure ("boom".data))).1.conversation_history = []
    ∧ (interact (fun _ => none) initAgentState ("hi".data) ("agent".data)
        (.failure ("boom".data))).2 = ("Round 1 failed: boom".data) := by
  refine ⟨rfl, rfl, by decide⟩

/-- Round counter and ledger bookkeeping of a whole session, generalized
over the starting state: each call consumes exactly one round number, and
exactly the successful calls append a record carrying their number. -/
theorem runCalls_spec (rt : Text → Option (Text → Text)) :
    ∀ (calls : List (Text × Text × LLMResult)) (st : AgentState),
      (runCalls rt st calls).current_round = st.current_round + calls.length
      ∧ (runCalls rt st calls).conversation_history.map (fun r => r.round_number)
          = st.conversation_history.map (fun r => r.round_number)
            ++ roundNums st.current_round calls := by
  intro calls
  induction calls with
  | nil => intro st; simp [runCalls, roundNums]
  | cons c cs ih =>
    intro st
    obtain ⟨c1, c2, res⟩ := c
    have hstep : runCalls rt st ((c1, c2, res) :: cs)
        = runCalls rt (interact rt st c1 c2 res).1 cs := rfl
    rw [hstep]
    rcases ih (interact rt st c1 c2 res).1 with ⟨ihc, ihh⟩
    cases res with
    | failure m =>
      have h1 : (interact rt st c1 c2 (.failure m)).1.current_round
          = st.current_round + 1 := rfl
      have h2 : (interact rt st c1 c2 (.failure m)).1.conversation_history
          = st.conversation_history := rfl
      refine ⟨by rw [ihc, h1]; simp only [List.length_cons]; omega, ?_⟩
      rw [ihh, h2, h1]
      rfl
    | success out steps =>
      have h1 : (interact rt st c1 c2 (.success out steps)).1.current_round
          = st.current_round + 1 := rfl
      have h2 : ((interact rt st c1 c2 (.success out steps)).1.conversation_history).map
            (fun r => r.round_number)
          = st.conversation_history.map (fun r => r.round_number)
            ++ [st.current_round + 1] := by
        simp [interact]
      refine ⟨by rw [ihc, h1]; simp only [List.length_cons]; omega, ?_⟩
      rw [ihh, h2, h1]
      rw [show roundNums st.current_round ((c1, c2, LLMResult.success out steps) :: cs)
          = (st.current_round + 1) :: roundNums (st.current_round + 1) cs from rfl]
      simp

/-- The recorded numbers of a session starting at round counter `s` form a
strictly increasing chain within `(s, s + number of calls]`. -/
theorem roundNums_bounds :
    ∀ (cs : List (Text × Text × LLMResult)) (s : Nat),
      List.Chain' (· < ·) (roundNums s cs)
      ∧ ∀ n ∈ roundNums s cs, s < n ∧ n ≤ s + cs.length := by
  intro cs
  induction cs with
  | nil => intro s; simp [roundNums]
  | cons c cs ih =>
    intro s
    obtain ⟨c1, c2, res⟩ := c
    rcases ih (s + 1) with ⟨ihch, ihb⟩
    cases res with
    | failure m =>
      rw [show roundNums s ((c1, c2, LLMResult.failure m) :: cs)
          = roundNums (s + 1) cs from rfl]
      refine ⟨ihch, fun n hn => ?_⟩
      rcases ihb n hn with ⟨hb1, hb2⟩
      constructor
      · omega
      · simp only [List.length_cons]
        omega
    | success out steps =>
      rw [show roundNums s ((c1, c2, LLMResult.success out steps) :: cs)
          = (s + 1) :: roundNums (s + 1) cs from rfl]
      constructor
      · rw [List.chain'_cons']
        refine ⟨fun y hy => ?_, ihch⟩
        have hmem : y ∈ roundNums (s + 1) cs := List.mem_of_mem_head? hy
        exact (ihb y hmem).1
      · intro n hn
        rcases List.mem_cons.mp hn with rfl | hn
        · simp
        · rcases ihb n hn with ⟨hb1, hb2⟩
          constructor
          · omega
          · simp only [List.length_cons]
            omega

/-- C2 (amended): over any session, the round counter increases by exactly
one per `interact` call; a successful call appends a record carrying that
round number while a failed call appends nothing, so the recorded round
numbers are the strictly increasing sequence of the successful calls'
numbers (each between 1 and the number of calls) — with a gap for every
failure. -/
theorem C2_round_accounting (rt : Text → Option (Text → Text))
    (calls : List (Text × Text × LLMResult)) :
    (runCalls rt initAgentState calls).current_round = calls.length
    ∧ (runCalls rt initAgentState calls).conversation_history.map (fun r => r.round_number)
        = roundNums 0 calls
    ∧ List.Chain' (· < ·)
        ((runCalls rt initAgentState calls).conversation_history.map (fun r => r.round_number))
    ∧ ∀ n ∈ roundNums 0 calls, 1 ≤ n ∧ n ≤ calls.length := by
  rcases runCalls_spec rt calls initAgentState with ⟨h1, h2⟩
  rcases roundNums_bounds calls 0 with ⟨h3, h4⟩
  refine ⟨by simpa [initAgentState] using h1, by simpa [initAgentState] using h2, ?_, fun n hn => ?_⟩
  · rw [h2]
    simpa using h3
  · rcases h4 n hn with ⟨hb1, hb2⟩
    exact ⟨hb1, by simpa using hb2⟩

/-- The guard's input truncation when the trigger fires on an oversized
input. -/
theorem sizeGuard_take (input : Text) (messages : List Text)
    (h : 120000 < (messages.foldl (fun acc m => acc ++ m) input).length / 4)
    (hbig : 100000 < input.length) :
    (sizeGuard input messages).1 = input.take 100000 ++ truncMarker := by
  rw [sizeGuard, if_pos h, if_pos hbig]

/-- C3 counterexample: a 500,000-character input (estimated 125,000 tokens)
triggers the guard, but the truncated input is 100,000 characters plus the
70-character marker — 100,070 characters, not "at most 100,000". -/
theorem C3_counterexample :
    120000 < bigInput.length / 4
    ∧ truncMarker.length = 70
    ∧ (sizeGuard bigInput []).1.length = 100070
    ∧ ¬ ((sizeGuard bigInput []).1.length ≤ 100000) := by
  have hlen : bigInput.length = 500000 := by rw [bigInput, List.length_replicate]
  have hfold : ([] : List Text).foldl (fun acc m => acc ++ m) bigInput = bigInput := rfl
  have htrig : 120000 < (([] : List Text).foldl (fun acc m => acc ++ m) bigInput).length / 4 := by
    rw [hfold, hlen]
    decide
  have hguard : (sizeGuard bigInput []).1 = bigInput.take 100000 ++ truncMarker :=
    sizeGuard_take bigInput [] htrig (by rw [hlen]; decide)
  refine ⟨by rw [hlen]; decide, by decide, ?_, ?_⟩
  · rw [hguard, List.length_append, List.length_take, hlen]
    decide
  · rw [hguard, List.length_append, List.length_take, hlen]
    decide

/-- C3 (amended): whenever the estimated token count of the input plus the
full chat memory exceeds 120,000, the guard caps the input at 100,000
characters plus the fixed 70-character truncation marker (an input already
within the cap is passed through unchanged) and keeps only the most recent
10 chat messages. -/
theorem C3_size_guard (input : Text) (messages : List Text)
    (h : 120000 < (messages.foldl (fun acc m => acc ++ m) input).length / 4) :
    (sizeGuard input messages).1.length ≤ 100000 + truncMarker.length
    ∧ (input.length ≤ 100000 → (sizeGuard input messages).1 = input)
    ∧ (sizeGuard input messages).2 = lastN 10 messages := by
  rw [sizeGuard, if_pos h]
  by_cases hbig : 100000 < input.length
  · rw [if_pos hbig]
    refine ⟨?_, fun hsmall => absurd hbig (by omega), ?_⟩
    · rw [List.length_append, List.length_take]
      omega
    · by_cases hm : 10 < messages.length
      · rw [if_pos hm]
      · rw [if_neg hm, lastN]
        have : messages.length - 10 = 0 := by omega
        rw [this, List.drop_zero]
  · rw [if_neg hbig]
    refine ⟨?_, fun _ => rfl, ?_⟩
    · show input.length ≤ 100000 + truncMarker.length
      omega
    · by_cases hm : 10 < messages.length
      · rw [if_pos hm]
      · rw [if_neg hm, lastN]
        have : messages.length - 10 = 0 := by omega
        rw [this, List.drop_zero]

/-- C3 witness: the guard applied to the 500,000-character input. -/
theorem C3_size_guard_witness :
    (sizeGuard bigInput []).1.length ≤ 100000 + truncMarker.length
    ∧ (sizeGuard bigInput []).2 = lastN 10 ([] : List Text) := by
  have hfold : ([] : List Text).foldl (fun acc m => acc ++ m) bigInput = bigInput := rfl
  have htrig : 120000 < (([] : List Text).foldl (fun acc m => acc ++ m) bigInput).length / 4 := by
    rw [hfold, bigInput, List.length_replicate]
    decide
  exact ⟨(C3_size_guard bigInput [] htrig).1, (C3_size_guard bigInput [] htrig).2.2⟩

/-- After a v1 update-or-append, a task with the processed id exists. -/
theorem v1_updateOrAppend_hasId (i : Nat) (d s : Text) (ts : List V1.Task) :
    ∃ t ∈ (V1.updateOrAppend i d s ts).1, t.id = i := by
  induction ts with
  | nil =>
    exact ⟨{ id := i, description := d, status := s, subtasks := [] },
      by simp [V1.updateOrAppend], rfl⟩
  | cons t ts ih =>
    by_cases ht : t.id = i
    · rw [V1.updateOrAppend, if_pos ht]
      by_cases hch : t.status ≠ s ∨ t.description ≠ d
      · rw [if_pos hch]
        exact ⟨{ t with status := s, description := d }, List.mem_cons_self _ _, ht⟩
      · rw [if_neg hch]
        exact ⟨t, by simp, ht⟩
    · rw [V1.updateOrAppend, if_neg ht]
      rcases ih with ⟨t2, ht2, hid⟩
      exact ⟨t2, by simp [ht2], hid⟩

/-- A v1 update-or-append never removes an id from the tree. -/
theorem v1_updateOrAppend_preserves (i j : Nat) (d s : Text) (ts : List V1.Task)
    (h : ∃ t ∈ ts, t.id = j) : ∃ t ∈ (V1.updateOrAppend i d s ts).1, t.id = j := by
  induction ts with
  | nil => simp at h
  | cons t ts ih =>
    rcases h with ⟨tw, htw, hid⟩
    rcases List.mem_cons.mp htw with rfl | htl
    · by_cases ht : tw.id = i
      · rw [V1.updateOrAppend, if_pos ht]
        by_cases hch : tw.status ≠ s ∨ tw.description ≠ d
        · rw [if_pos hch]
          exact ⟨{ tw with status := s, description := d }, List.mem_cons_self _ _, hid⟩
        · rw [if_neg hch]
          exact ⟨tw, by simp, hid⟩
      · rw [V1.updateOrAppend, if_neg ht]
        exact ⟨tw, by simp, hid⟩
    · by_cases ht : t.id = i
      · rw [V1.updateOrAppend, if_pos ht]
        by_cases hch : t.status ≠ s ∨ t.description ≠ d
        · rw [if_pos hch]
          exact ⟨tw, by simp [htl], hid⟩
        · rw [if_neg hch]
          exact ⟨tw, by simp [htl], hid⟩
      · rw [V1.updateOrAppend, if_neg ht]
        rcases ih ⟨tw, htl, hid⟩ with ⟨t2, ht2, hid2⟩
        exact ⟨t2, by simp [ht2], hid2⟩

/-- When the processed id already exists, a v1 update-or-append keeps the
task count. -/
theorem v1_updateOrAppend_length (i : Nat) (d s : Text) (ts : List V1.Task)
    (h : ∃ t ∈ ts, t.id = i) :
    (V1.updateOrAppend i d s ts).1.length = ts.length := by
  induction ts with
  | nil => simp at h
  | cons t ts ih =>
    by_cases ht : t.id = i
    · rw [V1.updateOrAppend, if_pos ht]
      by_cases hch : t.status ≠ s ∨ t.description ≠ d
      · rw [if_pos hch]; rfl
      · rw [if_neg hch]
    · rw [V1.updateOrAppend, if_neg ht]
      rcases h with ⟨tw, htw, hid⟩
      rcases List.mem_cons.mp htw with rfl | htl
      · exact absurd hid ht
      · simp [ih ⟨tw, htl, hid⟩]

/-- The v1 extraction fold creates every processed id and never loses one. -/
theorem v1_applyArrows_hasId (us : List (Nat × Text × Text)) (acc : List V1.Task × Nat) :
    (∀ u ∈ us, ∃ t ∈ (us.foldl V1.applyArrow acc).1, t.id = u.1)
    ∧ (∀ j, (∃ t ∈ acc.1, t.id = j) → ∃ t ∈ (us.foldl V1.applyArrow acc).1, t.id = j) := by
  induction us generalizing acc with
  | nil => exact ⟨by simp, fun j h => by simpa using h⟩
  | cons u us ih =>
    rw [List.foldl_cons]
    refine ⟨fun v hv => ?_, fun j h => ?_⟩
    · rcases List.mem_cons.mp hv with rfl | htl
      · exact (ih (V1.applyArrow acc v)).2 v.1 (v1_updateOrAppend_hasId v.1 _ _ acc.1)
      · exact (ih (V1.applyArrow acc u)).1 v htl
    · exact (ih (V1.applyArrow acc u)).2 j (v1_updateOrAppend_preserves u.1 j _ _ acc.1 h)

/-- The v1 extraction fold keeps the task count when all processed ids are
already present. -/
theorem v1_applyArrows_length (us : List (Nat × Text × Text)) (acc : List V1.Task × Nat)
    (h : ∀ u ∈ us, ∃ t ∈ acc.1, t.id = u.1) :
    (us.foldl V1.applyArrow acc).1.length = acc.1.length := by
  induction us generalizing acc with
  | nil => rfl
  | cons u us ih =>
    rw [List.foldl_cons]
    have hstep : (V1.applyArrow acc u).1.length = acc.1.length :=
      v1_updateOrAppend_length u.1 _ _ acc.1 (h u (by simp))
    rw [ih (V1.applyArrow acc u) (fun v hv => v1_updateOrAppend_preserves u.1 v.1 _ _ acc.1
      (h v (by simp [hv]))), hstep]

/-- After a v3 arrow update-or-append, a task with the processed id exists. -/
theorem v3_updateOrAppendArrow_hasId (i : Int) (d s : Text) (ts : List V3.Task) (w : Int) :
    ∃ t ∈ (V3.updateOrAppendArrow i d s ts w).1, t.id = i := by
  induction ts generalizing w with
  | nil =>
    exact ⟨{ id := i, description := d, status := s, subtasks := [] },
      by simp [V3.updateOrAppendArrow], rfl⟩
  | cons t ts ih =>
    by_cases ht : t.id = i
    · rw [V3.updateOrAppendArrow, if_pos ht]
      exact ⟨{ t with status := s, description := d }, List.mem_cons_self _ _, ht⟩
    · rw [V3.updateOrAppendArrow, if_neg ht]
      rcases ih w with ⟨t2, ht2, hid⟩
      exact ⟨t2, by simp [ht2], hid⟩

/-- A v3 arrow update-or-append never removes an id. -/
theorem v3_updateOrAppendArrow_preserves (i j : Int) (d s : Text) (ts : List V3.Task) (w : Int)
    (h : ∃ t ∈ ts, t.id = j) :
    ∃ t ∈ (V3.updateOrAppendArrow i d s ts w).1, t.id = j := by
  induction ts generalizing w with
  | nil => simp at h
  | cons t ts ih =>
    rcases h with ⟨tw, htw, hid⟩
    rcases List.mem_cons.mp htw with rfl | htl
    · by_cases ht : tw.id = i
      · rw [V3.updateOrAppendArrow, if_pos ht]
        exact ⟨{ tw with status := s, description := d }, List.mem_cons_self _ _, hid⟩
      · rw [V3.updateOrAppendArrow, if_neg ht]
        exact ⟨tw, by simp, hid⟩
    · by_cases ht : t.id = i
      · rw [V3.updateOrAppendArrow, if_pos ht]
        exact ⟨tw, by simp [htl], hid⟩
      · rw [V3.updateOrAppendArrow, if_neg ht]
        rcases ih w ⟨tw, htl, hid⟩ with ⟨t2, ht2, hid2⟩
        exact ⟨t2, by simp [ht2], hid2⟩

/-- When the processed id already exists, a v3 arrow update keeps the task
count. -/
theorem v3_updateOrAppendArrow_length (i : Int) (d s : Text) (ts : List V3.Task) (w : Int)
    (h : ∃ t ∈ ts, t.id = i) :
    (V3.updateOrAppendArrow i d s ts w).1.length = ts.length := by
  induction ts generalizing w with
  | nil => simp at h
  | cons t ts ih =>
    by_cases ht : t.id = i
    · rw [V3.updateOrAppendArrow, if_pos ht]; rfl
    · rw [V3.updateOrAppendArrow, if_neg ht]
      rcases h with ⟨tw, htw, hid⟩
      rcases List.mem_cons.mp htw with rfl | htl
      · exact absurd hid ht
      · simp [ih w ⟨tw, htl, hid⟩]

/-- The v3 arrow fold creates every processed id and never loses one. -/
theorem v3_applyArrows_hasId (us : List (Nat × Text × Text)) (acc : List V3.Task × Int × Nat) :
    (∀ u ∈ us, ∃ t ∈ (us.foldl V3.applyArrow acc).1, t.id = (u.1 : Int))
    ∧ (∀ j, (∃ t ∈ acc.1, t.id = j) → ∃ t ∈ (us.foldl V3.applyArrow acc).1, t.id = j) := by
  induction us generalizing acc with
  | nil => exact ⟨by simp, fun j h => by simpa using h⟩
  | cons u us ih =>
    rw [List.foldl_cons]
    refine ⟨fun v hv => ?_, fun j h => ?_⟩
    · rcases List.mem_cons.mp hv with rfl | htl
      · exact (ih (V3.applyArrow acc v)).2 (v.1 : Int)
          (v3_updateOrAppendArrow_hasId (v.1 : Int) _ _ acc.1 acc.2.1)
      · exact (ih (V3.applyArrow acc u)).1 v htl
    · exact (ih (V3.applyArrow acc u)).2 j
        (v3_updateOrAppendArrow_preserves (u.1 : Int) j _ _ acc.1 acc.2.1 h)

/-- The v3 arrow fold keeps the task count when all processed ids are
already present. -/
theorem v3_applyArrows_length (us : List (Nat × Text × Text)) (acc : List V3.Task × Int × Nat)
    (h : ∀ u ∈ us, ∃ t ∈ acc.1, t.id = (u.1 : Int)) :
    (us.foldl V3.applyArrow acc).1.length = acc.1.length := by
  induction us generalizing acc with
  | nil => rfl
  | cons u us ih =>
    rw [List.foldl_cons]
    have hstep : (V3.applyArrow acc u).1.length = acc.1.length :=
      v3_updateOrAppendArrow_length (u.1 : Int) _ _ acc.1 acc.2.1 (h u (by simp))
    rw [ih (V3.applyArrow acc u) (fun v hv =>
      v3_updateOrAppendArrow_preserves (u.1 : Int) (v.1 : Int) _ _ acc.1 acc.2.1
        (h v (by simp [hv]))), hstep]

/-- The v3 arrow fold counts exactly one per directive. -/
theorem v3_applyArrows_count (us : List (Nat × Text × Text)) (acc : List V3.Task × Int × Nat) :
    (us.foldl V3.applyArrow acc).2.2 = acc.2.2 + us.length := by
  induction us generalizing acc with
  | nil => rfl
  | cons u us ih =>
    rw [List.foldl_cons, ih (V3.applyArrow acc u)]
    show acc.2.2 + 1 + us.length = acc.2.2 + (us.length + 1)
    omega

/-- Sorting the tasks is a permutation. -/
theorem v3_sortTasks_perm (ts : List V3.Task) : (V3.sortTasks ts).Perm ts :=
  List.perm_insertionSort _ ts

/-- When at least one arrow directive matches, the v3 extraction is the
arrow fold followed by the sort (the JSON fallback is skipped). -/
theorem v3_extract_arrow (tree : V3.TaskTree) (resp : Text)
    (hne : parseArrowAll resp ≠ []) :
    (V3.extract_tasks_from_response tree resp).1.tasks
      = V3.sortTasks ((parseArrowAll resp).foldl V3.applyArrow
          (tree.tasks, tree.current_task_id, 0)).1 := by
  have hc : ((parseArrowAll resp).foldl V3.applyArrow
      (tree.tasks, tree.current_task_id, 0)).2.2 ≠ 0 := by
    rw [v3_applyArrows_count]
    have := List.length_pos.mpr hne
    omega
  simp only [V3.extract_tasks_from_response, if_neg hc]

/-- Re-applying a JSON update-or-append with the same id and field values
on its own output preserves the length: the second pass always finds the
task the first pass ensured. -/
theorem v3_uoaj_length_idem (i : Int) (d s : Text) (pid det : Option Text)
    (ts : List V3.Task) :
    (V3.updateOrAppendJson i d s pid det
       (V3.updateOrAppendJson i d s pid det ts)).length
      = (V3.updateOrAppendJson i d s pid det ts).length := by
  induction ts with
  | nil => simp [V3.updateOrAppendJson]
  | cons t ts ih =>
    by_cases ht : t.id = i
    · simp [V3.updateOrAppendJson, ht]
    · simp [V3.updateOrAppendJson, ht, ih]

/-- Applying a JSON update whose explicit task id is a nonzero integer:
`int(task_id)` succeeds, the watermark is extended with `max` and the
update-or-append step runs on exactly that id. -/
theorem v3_applyJsonUpdate_jnum (tree : V3.TaskTree) (c : Nat) (u : V3.JUpdate)
    (n : Int) (d st : Text) (pid det : Option Text)
    (htid : u.task_id = some (Json.jnum n)) (hn : n ≠ 0)
    (hd : V3.descField u.description = some d)
    (hs : V3.statusField u.status = some st)
    (hp : V3.optTextField u.parent_id = some pid)
    (hdet : V3.optTextField u.details = some det) :
    V3.applyJsonUpdate tree c u
      = some ({ tree with
                current_task_id := max tree.current_task_id n
                tasks := V3.updateOrAppendJson n d st pid det tree.tasks }, c + 1) := by
  have hr : V3.resolveTaskId tree.current_task_id u.task_id
      = some (max tree.current_task_id n, n) := by
    rw [htid]
    simp [V3.resolveTaskId, jsonTruthy, hn]
  rw [V3.applyJsonUpdate, hr, hd, hs, hp, hdet]

/-- C4 counterexample: a fallback directive without a `task_id`, and one
whose explicit `task_id` is not parseable as an integer (the `ValueError`
branch), each applied twice through `extract_tasks_from_response`, grow the
tree from one task to two — re-application is not idempotent for either
kind of auto-id directive. -/
theorem C4_counterexample :
    ((V3.extract_tasks_from_response V3.emptyTree noIdDirective).1.tasks.length = 1
      ∧ (V3.extract_tasks_from_response
          (V3.extract_tasks_from_response V3.emptyTree noIdDirective).1
          noIdDirective).1.tasks.length = 2)
    ∧ ((V3.extract_tasks_from_response V3.emptyTree strIdDirective).1.tasks.length = 1
      ∧ (V3.extract_tasks_from_response
          (V3.extract_tasks_from_response V3.emptyTree strIdDirective).1
          strIdDirective).1.tasks.length = 2) := by
  exact ⟨⟨by decide, by decide⟩, by decide, by decide⟩

/-- C4 (amended): re-applying an identical response leaves the task count
unchanged for the v1 extractor (always) and for the v3 extractor whenever
the response contains an arrow directive; a v3 fallback JSON update whose
explicit `task_id` is a nonzero integer also preserves the task count when
re-applied; and the in-progress/completed scenario for task 1 ends with
exactly one task, id 1, status completed, in both implementations. -/
theorem C4_idempotence :
    (∀ (tree : V1.TaskTree) (resp : Text),
       (V1.extract_tasks_from_response
          (V1.extract_tasks_from_response tree resp).1 resp).1.tasks.length
         = (V1.extract_tasks_from_response tree resp).1.tasks.length)
    ∧ (∀ (tree : V3.TaskTree) (resp : Text), parseArrowAll resp ≠ [] →
       (V3.extract_tasks_from_response
          (V3.extract_tasks_from_response tree resp).1 resp).1.tasks.length
         = (V3.extract_tasks_from_response tree resp).1.tasks.length)
    ∧ (∀ (tree : V3.TaskTree) (c c' : Nat) (u : V3.JUpdate) (n : Int)
         (tree1 : V3.TaskTree) (c1 : Nat),
         u.task_id = some (Json.jnum n) → n ≠ 0 →
         V3.applyJsonUpdate tree c u = some (tree1, c1) →
         ∃ tree2 c2, V3.applyJsonUpdate tree1 c' u = some (tree2, c2)
           ∧ tree2.tasks.length = tree1.tasks.length)
    ∧ ((V1.extract_tasks_from_response
          (V1.extract_tasks_from_response V1.emptyTree directiveInProgress).1
          directiveCompleted).1.tasks.map (fun t => (t.id, t.status))
        = [(1, "completed".data)])
    ∧ ((V3.extract_tasks_from_response
          (V3.extract_tasks_from_response V3.emptyTree directiveInProgress).1
          directiveCompleted).1.tasks.map (fun t => (t.id, t.status))
        = [((1 : Int), "completed".data)]) := by
  refine ⟨fun tree resp => ?_, fun tree resp hne => ?_,
    fun tree c c' u n tree1 c1 htid hn h => ?_, by decide, by decide⟩
  · have hperm1 := List.perm_insertionSort (fun (a b : V1.Task) => a.id ≤ b.id)
      ((parseArrowAll resp).foldl V1.applyArrow (tree.tasks, 0)).1
    have hpres : ∀ u ∈ parseArrowAll resp,
        ∃ t ∈ (V1.extract_tasks_from_response tree resp).1.tasks, t.id = u.1 := by
      intro u hu
      rcases (v1_applyArrows_hasId (parseArrowAll resp) (tree.tasks, 0)).1 u hu with ⟨t, ht, hid⟩
      exact ⟨t, hperm1.mem_iff.mpr ht, hid⟩
    have hperm2 := List.perm_insertionSort (fun (a b : V1.Task) => a.id ≤ b.id)
      ((parseArrowAll resp).foldl V1.applyArrow
        ((V1.extract_tasks_from_response tree resp).1.tasks, 0)).1
    calc (V1.extract_tasks_from_response
            (V1.extract_tasks_from_response tree resp).1 resp).1.tasks.length
        = ((parseArrowAll resp).foldl V1.applyArrow
            ((V1.extract_tasks_from_response tree resp).1.tasks, 0)).1.length :=
          hperm2.length_eq
      _ = (V1.extract_tasks_from_response tree resp).1.tasks.length :=
          v1_applyArrows_length (parseArrowAll resp)
            ((V1.extract_tasks_from_response tree resp).1.tasks, 0) hpres
  · have hE1 := v3_extract_arrow tree resp hne
    have hE2 := v3_extract_arrow (V3.extract_tasks_from_response tree resp).1 resp hne
    have hperm1 := v3_sortTasks_perm
      ((parseArrowAll resp).foldl V3.applyArrow (tree.tasks, tree.current_task_id, 0)).1
    have hpres : ∀ u ∈ parseArrowAll resp,
        ∃ t ∈ (V3.extract_tasks_from_response tree resp).1.tasks, t.id = (u.1 : Int) := by
      intro u hu
      rcases (v3_applyArrows_hasId (parseArrowAll resp)
        (tree.tasks, tree.current_task_id, 0)).1 u hu with ⟨t, ht, hid⟩
      rw [hE1]
      exact ⟨t, hperm1.mem_iff.mpr ht, hid⟩
    have hperm2 := v3_sortTasks_perm
      ((parseArrowAll resp).foldl V3.applyArrow
        ((V3.extract_tasks_from_response tree resp).1.tasks,
         (V3.extract_tasks_from_response tree resp).1.current_task_id, 0)).1
    calc (V3.extract_tasks_from_response
            (V3.extract_tasks_from_response tree resp).1 resp).1.tasks.length
        = ((parseArrowAll resp).foldl V3.applyArrow
            ((V3.extract_tasks_from_response tree resp).1.tasks,
             (V3.extract_tasks_from_response tree resp).1.current_task_id, 0)).1.length := by
          rw [hE2]
          exact hperm2.length_eq
      _ = (V3.extract_tasks_from_response tree resp).1.tasks.length :=
          v3_applyArrows_length (parseArrowAll resp)
            ((V3.extract_tasks_from_response tree resp).1.tasks,
             (V3.extract_tasks_from_response tree resp).1.current_task_id, 0) hpres
  · rw [V3.applyJsonUpdate] at h
    split at h
    case _ w1 i d st pid det hr hd hs hp hdet =>
      rw [htid] at hr
      simp [V3.resolveTaskId, jsonTruthy, hn] at hr
      obtain ⟨hw, hi⟩ := hr
      subst hi
      subst hw
      simp only [Option.some.injEq, Prod.mk.injEq] at h
      obtain ⟨rfl, rfl⟩ := h
      exact ⟨_, _,
        v3_applyJsonUpdate_jnum _ c' u n d st pid det htid hn hd hs hp hdet,
        v3_uoaj_length_idem n d st pid det tree.tasks⟩
    case _ => simp at h

/-- C4 witness: the v3 arrow non-growth clause at a concrete directive, and
the explicit-integer-id fallback clause at a concrete update on a concrete
tree. -/
theorem C4_idempotence_witness :
    ((V3.extract_tasks_from_response
        (V3.extract_tasks_from_response V3.emptyTree directiveTask5).1
        directiveTask5).1.tasks.length
       = (V3.extract_tasks_from_response V3.emptyTree directiveTask5).1.tasks.length)
    ∧ (∃ tree2 c2, V3.applyJsonUpdate jNumTree 0 jNumUpdate = some (tree2, c2)
        ∧ tree2.tasks.length = jNumTree.tasks.length) :=
  ⟨C4_idempotence.2.1 V3.emptyTree directiveTask5 (by decide),
   C4_idempotence.2.2.1 V3.emptyTree 0 0 jNumUpdate 5 jNumTree 1 rfl (by decide) (by decide)⟩

/-- A v3 arrow update extends the watermark to cover the processed id and
keeps every task id bounded by it. -/
theorem v3_uoa_watermark (i : Int) (d s : Text) (ts : List V3.Task) (w : Int)
    (hinv : ∀ t ∈ ts, t.id ≤ w) :
    w ≤ (V3.updateOrAppendArrow i d s ts w).2
    ∧ i ≤ (V3.updateOrAppendArrow i d s ts w).2
    ∧ ∀ t ∈ (V3.updateOrAppendArrow i d s ts w).1,
        t.id ≤ (V3.updateOrAppendArrow i d s ts w).2 := by
  induction ts generalizing w with
  | nil =>
    refine ⟨le_max_left _ _, le_max_right _ _, fun t ht => ?_⟩
    simp only [V3.updateOrAppendArrow, List.mem_singleton] at ht
    rw [ht]
    exact le_max_right _ _
  | cons t ts ih =>
    by_cases ht : t.id = i
    · rw [V3.updateOrAppendArrow, if_pos ht]
      have hi : i ≤ w := ht ▸ hinv t (by simp)
      refine ⟨le_refl _, hi, fun t2 ht2 => ?_⟩
      rcases List.mem_cons.mp ht2 with rfl | htl
      · exact ht ▸ hi
      · exact hinv t2 (by simp [htl])
    · rw [V3.updateOrAppendArrow, if_neg ht]
      rcases ih w (fun t2 ht2 => hinv t2 (by simp [ht2])) with ⟨h1, h2, h3⟩
      refine ⟨h1, h2, fun t2 ht2 => ?_⟩
      rcases List.mem_cons.mp ht2 with rfl | htl
      · exact le_trans (hinv t2 (by simp)) h1
      · exact h3 t2 htl

/-- The v3 arrow fold never decreases the watermark, keeps every task id
bounded by it, and bounds every parsed directive id. -/
theorem v3_arrowFold_watermark (us : List (Nat × Text × Text))
    (acc : List V3.Task × Int × Nat) (hinv : ∀ t ∈ acc.1, t.id ≤ acc.2.1) :
    acc.2.1 ≤ (us.foldl V3.applyArrow acc).2.1
    ∧ (∀ t ∈ (us.foldl V3.applyArrow acc).1, t.id ≤ (us.foldl V3.applyArrow acc).2.1)
    ∧ ∀ u ∈ us, (u.1 : Int) ≤ (us.foldl V3.applyArrow acc).2.1 := by
  induction us generalizing acc with
  | nil => exact ⟨le_refl _, hinv, by simp⟩
  | cons u us ih =>
    rw [List.foldl_cons]
    rcases v3_uoa_watermark (u.1 : Int) (stripT u.2.1) (lowerT u.2.2) acc.1 acc.2.1 hinv
      with ⟨hw, hu, hin⟩
    rcases ih (V3.applyArrow acc u) hin with ⟨ih1, ih2, ih3⟩
    refine ⟨le_trans hw ih1, ih2, fun v hv => ?_⟩
    rcases List.mem_cons.mp hv with rfl | htl
    · exact le_trans hu ih1
    · exact ih3 v htl

/-- `resolveTaskId` never decreases the watermark and bounds the resolved
id by the new watermark. -/
theorem resolveTaskId_bounds (w : Int) (tid : Option Json) (w1 i : Int)
    (h : V3.resolveTaskId w tid = some (w1, i)) : w ≤ w1 ∧ i ≤ w1 := by
  rcases tid with - | v
  · simp only [V3.resolveTaskId, Option.some.injEq, Prod.mk.injEq] at h
    omega
  · cases v with
    | jstr s =>
      simp only [V3.resolveTaskId] at h
      split_ifs at h with htr
      · simp only [Option.some.injEq, Prod.mk.injEq] at h
        omega
      · cases hpi : pyToInt s with
        | some j =>
          rw [hpi] at h
          simp only [Option.some.injEq, Prod.mk.injEq] at h
          rcases h with ⟨rfl, rfl⟩
          exact ⟨le_max_left _ _, le_max_right _ _⟩
        | none =>
          rw [hpi] at h
          simp only [Option.some.injEq, Prod.mk.injEq] at h
          omega
    | jnum j =>
      simp only [V3.resolveTaskId] at h
      split_ifs at h with htr
      · simp only [Option.some.injEq, Prod.mk.injEq] at h
        omega
      · simp only [Option.some.injEq, Prod.mk.injEq] at h
        rcases h with ⟨rfl, rfl⟩
        exact ⟨le_max_left _ _, le_max_right _ _⟩
    | jbool b =>
      simp only [V3.resolveTaskId] at h
      split_ifs at h with htr
      · simp only [Option.some.injEq, Prod.mk.injEq] at h
        omega
      · simp only [Option.some.injEq, Prod.mk.injEq] at h
        rcases h with ⟨rfl, rfl⟩
        exact ⟨le_max_left _ _, le_max_right _ _⟩
    | jnull =>
      simp only [V3.resolveTaskId] at h
      split_ifs at h with htr
      simp only [Option.some.injEq, Prod.mk.injEq] at h
      omega
    | jarr xs =>
      simp only [V3.resolveTaskId] at h
      split_ifs at h with htr
      simp only [Option.some.injEq, Prod.mk.injEq] at h
      omega
    | jobj fs =>
      simp only [V3.resolveTaskId] at h
      split_ifs at h with htr
      simp only [Option.some.injEq, Prod.mk.injEq] at h
      omega

/-- A v3 JSON update-or-append keeps every task id bounded when the new id
is bounded. -/
theorem v3_uoaj_inv (i : Int) (d s : Text) (pid det : Option Text) (ts : List V3.Task)
    (w1 : Int) (hts : ∀ t ∈ ts, t.id ≤ w1) (hi : i ≤ w1) :
    ∀ t ∈ V3.updateOrAppendJson i d s pid det ts, t.id ≤ w1 := by
  induction ts with
  | nil =>
    intro t ht
    simp only [V3.updateOrAppendJson, List.mem_singleton] at ht
    rw [ht]
    exact hi
  | cons t ts ih =>
    intro t2 ht2
    by_cases ht : t.id = i
    · rw [V3.updateOrAppendJson, if_pos ht] at ht2
      rcases List.mem_cons.mp ht2 with rfl | htl
      · exact hts t (by simp)
      · exact hts t2 (by simp [htl])
    · rw [V3.updateOrAppendJson, if_neg ht] at ht2
      rcases List.mem_cons.mp ht2 with rfl | htl
      · exact hts t2 (by simp)
      · exact ih (fun t3 ht3 => hts t3 (by simp [ht3])) t2 htl

/-- A single applied JSON update preserves the id-bounded-by-watermark
invariant and never decreases the watermark. -/
theorem v3_applyJsonUpdate_inv (tree : V3.TaskTree) (c : Nat) (u : V3.JUpdate)
    (tree' : V3.TaskTree) (c' : Nat)
    (hinv : ∀ t ∈ tree.tasks, t.id ≤ tree.current_task_id)
    (h : V3.applyJsonUpdate tree c u = some (tree', c')) :
    (∀ t ∈ tree'.tasks, t.id ≤ tree'.current_task_id)
    ∧ tree.current_task_id ≤ tree'.current_task_id := by
  rw [V3.applyJsonUpdate] at h
  split at h
  case _ w1 i d st pid det hr hd hs hp hdet =>
    rcases resolveTaskId_bounds tree.current_task_id u.task_id w1 i hr with ⟨hb1, hb2⟩
    simp only [Option.some.injEq, Prod.mk.injEq] at h
    rcases h with ⟨rfl, -⟩
    refine ⟨?_, hb1⟩
    exact v3_uoaj_inv i _ _ _ _ tree.tasks w1
      (fun t ht => le_trans (hinv t ht) hb1) hb2
  case _ => simp at h

/-- Processing a batch of JSON updates preserves the invariant and never
decreases the watermark. -/
theorem v3_processUpdates_inv (es : List Json) (tree : V3.TaskTree) (c : Nat)
    (hinv : ∀ t ∈ tree.tasks, t.id ≤ tree.current_task_id) :
    (∀ t ∈ (V3.processUpdates tree c es).1.tasks,
        t.id ≤ (V3.processUpdates tree c es).1.current_task_id)
    ∧ tree.current_task_id ≤ (V3.processUpdates tree c es).1.current_task_id := by
  induction es generalizing tree c with
  | nil => exact ⟨hinv, le_refl _⟩
  | cons e es ih =>
    cases e with
    | jobj fs =>
      rw [V3.processUpdates]
      cases happ : V3.applyJsonUpdate tree c (V3.toJUpdate fs) with
      | none => exact ⟨hinv, le_refl _⟩
      | some p =>
        obtain ⟨tree1, c1⟩ := p
        rcases v3_applyJsonUpdate_inv tree c (V3.toJUpdate fs) tree1 c1 hinv happ
          with ⟨hinv1, hmon1⟩
        rcases ih tree1 c1 hinv1 with ⟨ih1, ih2⟩
        exact ⟨ih1, le_trans hmon1 ih2⟩
    | jstr s => exact ⟨hinv, le_refl _⟩
    | jnum n => exact ⟨hinv, le_refl _⟩
    | jbool b => exact ⟨hinv, le_refl _⟩
    | jnull => exact ⟨hinv, le_refl _⟩
    | jarr xs => exact ⟨hinv, le_refl _⟩

/-- Processing one parsed batch value preserves the invariant and never
decreases the watermark. -/
theorem v3_processBatchVal_inv (v : Json) (tree : V3.TaskTree) (c : Nat)
    (hinv : ∀ t ∈ tree.tasks, t.id ≤ tree.current_task_id) :
    (∀ t ∈ (V3.processBatchVal tree c v).1.tasks,
        t.id ≤ (V3.processBatchVal tree c v).1.current_task_id)
    ∧ tree.current_task_id ≤ (V3.processBatchVal tree c v).1.current_task_id := by
  cases v with
  | jobj fs =>
    rw [V3.processBatchVal]
    cases hup : objGet fs ("updates".data) with
    | none => exact ⟨hinv, le_refl _⟩
    | some uv =>
      cases uv with
      | jarr us => exact v3_processUpdates_inv us tree c hinv
      | jstr s => cases s with
        | nil => exact ⟨hinv, le_refl _⟩
        | cons c2 t => exact ⟨hinv, le_refl _⟩
      | jobj fs2 => cases fs2 with
        | nil => exact ⟨hinv, le_refl _⟩
        | cons f2 t => exact ⟨hinv, le_refl _⟩
      | jnum n => exact ⟨hinv, le_refl _⟩
      | jbool b => exact ⟨hinv, le_refl _⟩
      | jnull => exact ⟨hinv, le_refl _⟩
  | jstr s => exact ⟨hinv, le_refl _⟩
  | jnum n => exact ⟨hinv, le_refl _⟩
  | jbool b => exact ⟨hinv, le_refl _⟩
  | jnull => exact ⟨hinv, le_refl _⟩
  | jarr xs => exact ⟨hinv, le_refl _⟩

/-- Processing all fallback batches preserves the invariant and never
decreases the watermark. -/
theorem v3_processBatches_inv (bs : List Text) (tree : V3.TaskTree) (c : Nat)
    (hinv : ∀ t ∈ tree.tasks, t.id ≤ tree.current_task_id) :
    (∀ t ∈ (V3.processBatches tree c bs).1.tasks,
        t.id ≤ (V3.processBatches tree c bs).1.current_task_id)
    ∧ tree.current_task_id ≤ (V3.processBatches tree c bs).1.current_task_id := by
  induction bs generalizing tree c with
  | nil => exact ⟨hinv, le_refl _⟩
  | cons b bs ih =>
    cases hload : pyJsonLoads (V3.cleanJsonInput b) with
    | none =>
      have he : V3.processBatches tree c (b :: bs) = V3.processBatches tree c bs := by
        rw [V3.processBatches, hload]
      rw [he]
      exact ih tree c hinv
    | some v =>
      rcases v3_processBatchVal_inv v tree c hinv with ⟨hv1, hv2⟩
      rcases hbv : V3.processBatchVal tree c v with ⟨tree1, c1, aborted⟩
      rw [hbv] at hv1 hv2
      cases aborted with
      | false =>
        have he : V3.processBatches tree c (b :: bs) = V3.processBatches tree1 c1 bs := by
          rw [V3.processBatches, hload]
          show (match V3.processBatchVal tree c v with
            | (tree2, count2, false) => V3.processBatches tree2 count2 bs
            | (tree2, count2, true) => (tree2, count2)) = V3.processBatches tree1 c1 bs
          rw [hbv]
        rw [he]
        rcases ih tree1 c1 hv1 with ⟨ih1, ih2⟩
        exact ⟨ih1, le_trans hv2 ih2⟩
      | true =>
        have he : V3.processBatches tree c (b :: bs) = (tree1, c1) := by
          rw [V3.processBatches, hload]
          show (match V3.processBatchVal tree c v with
            | (tree2, count2, false) => V3.processBatches tree2 count2 bs
            | (tree2, count2, true) => (tree2, count2)) = (tree1, c1)
          rw [hbv]
        rw [he]
        exact ⟨hv1, hv2⟩

/-- With at least one arrow directive, the v3 extraction's watermark is the
arrow fold's watermark. -/
theorem v3_extract_arrow_watermark (tree : V3.TaskTree) (resp : Text)
    (hne : parseArrowAll resp ≠ []) :
    (V3.extract_tasks_from_response tree resp).1.current_task_id
      = ((parseArrowAll resp).foldl V3.applyArrow
          (tree.tasks, tree.current_task_id, 0)).2.1 := by
  have hc : ((parseArrowAll resp).foldl V3.applyArrow
      (tree.tasks, tree.current_task_id, 0)).2.2 ≠ 0 := by
    rw [v3_applyArrows_count]
    have := List.length_pos.mpr hne
    omega
  simp only [V3.extract_tasks_from_response, if_neg hc]

/-- Without arrow directives, the v3 extraction is the JSON fallback
followed by the sort. -/
theorem v3_extract_json (tree : V3.TaskTree) (resp : Text)
    (hz : parseArrowAll resp = []) :
    (V3.extract_tasks_from_response tree resp).1.tasks
        = V3.sortTasks (V3.processBatches tree 0 (V3.tmBatches resp)).1.tasks
    ∧ (V3.extract_tasks_from_response tree resp).1.current_task_id
        = (V3.processBatches tree 0 (V3.tmBatches resp)).1.current_task_id := by
  have h : V3.extract_tasks_from_response tree resp
      = ({ (V3.processBatches tree 0 (V3.tmBatches resp)).1 with
            tasks := V3.sortTasks (V3.processBatches tree 0 (V3.tmBatches resp)).1.tasks },
         (V3.processBatches tree 0 (V3.tmBatches resp)).2) := by
    rw [V3.extract_tasks_from_response, hz]
    rfl
  rw [h]
  exact ⟨rfl, rfl⟩

/-- C7 counterexample: the v1 extractor creates task 5 from the directive
but leaves the watermark `current_task_id` at 0 — the watermark does not
bound the parsed id 5. -/
theorem C7_counterexample :
    (parseArrowAll directiveTask5).map (fun u => u.1) = [5]
    ∧ (V1.extract_tasks_from_response V1.emptyTree directiveTask5).1.tasks.map (fun t => t.id)
        = [5]
    ∧ (V1.extract_tasks_from_response V1.emptyTree directiveTask5).1.current_task_id = 0 := by
  decide

/-- C7 (amended): the v3 extraction preserves the invariant that every task
id is bounded by `current_task_id`, never decreases the watermark, and
bounds every parsed arrow directive id by the final watermark. -/
theorem C7_watermark (tree : V3.TaskTree) (resp : Text)
    (hinv : ∀ t ∈ tree.tasks, t.id ≤ tree.current_task_id) :
    (∀ t ∈ (V3.extract_tasks_from_response tree resp).1.tasks,
        t.id ≤ (V3.extract_tasks_from_response tree resp).1.current_task_id)
    ∧ tree.current_task_id ≤ (V3.extract_tasks_from_response tree resp).1.current_task_id
    ∧ ∀ u ∈ parseArrowAll resp,
        (u.1 : Int) ≤ (V3.extract_tasks_from_response tree resp).1.current_task_id := by
  by_cases hz : parseArrowAll resp = []
  · rcases v3_extract_json tree resp hz with ⟨ht, hw⟩
    rcases v3_processBatches_inv (V3.tmBatches resp) tree 0 hinv with ⟨hb1, hb2⟩
    refine ⟨fun t htm => ?_, by rw [hw]; exact hb2, by simp [hz]⟩
    rw [ht] at htm
    rw [hw]
    exact hb1 t ((v3_sortTasks_perm _).mem_iff.mp htm)
  · rcases v3_arrowFold_watermark (parseArrowAll resp)
      (tree.tasks, tree.current_task_id, 0) hinv with ⟨hm, hin, hids⟩
    have hT := v3_extract_arrow tree resp hz
    have hW := v3_extract_arrow_watermark tree resp hz
    refine ⟨fun t htm => ?_, by rw [hW]; exact hm, fun u hu => by rw [hW]; exact hids u hu⟩
    rw [hT] at htm
    rw [hW]
    exact hin t ((v3_sortTasks_perm _).mem_iff.mp htm)

/-- C7 witness: the invariant discharged on a fresh tree and a concrete
directive. -/
theorem C7_watermark_witness :
    (∀ t ∈ (V3.extract_tasks_from_response V3.emptyTree directiveTask5).1.tasks,
        t.id ≤ (V3.extract_tasks_from_response V3.emptyTree directiveTask5).1.current_task_id)
    ∧ (V3.emptyTree.current_task_id
        ≤ (V3.extract_tasks_from_response V3.emptyTree directiveTask5).1.current_task_id)
    ∧ ∀ u ∈ parseArrowAll directiveTask5,
        (u.1 : Int)
          ≤ (V3.extract_tasks_from_response V3.emptyTree directiveTask5).1.current_task_id :=
  C7_watermark V3.emptyTree directiveTask5 (by simp [V3.emptyTree])

/-- The index selected by the reversed in-progress search is a valid index
(v1). -/
theorem v1_lastInProgressIdx_lt (ts : List V1.Task) (j : Nat)
    (h : V1.lastInProgressIdx ts = some j) : j < ts.length := by
  rw [V1.lastInProgressIdx] at h
  rcases Option.map_eq_some'.mp h with ⟨p, hp, hpj⟩
  rcases List.mem_getLast?_eq_getLast (by rw [hp]; rfl) with ⟨hne, rfl⟩
  have hmem : (ts.enum.filter (fun q => q.2.status = ("in-progress".data))).getLast hne
      ∈ ts.enum.filter (fun q => q.2.status = ("in-progress".data)) := List.getLast_mem hne
  have henum := List.mem_of_mem_filter hmem
  have hget := List.mem_enum_iff_get?.mp henum
  rcases List.get?_eq_some.mp hget with ⟨hlt, -⟩
  exact hpj ▸ hlt

/-- The running best of the Python `max(tasks, key=id)` fold stays a valid
index (v1). -/
theorem v1_maxFold_lt (l : List (Nat × V1.Task)) (acc : Nat × Nat) (n : Nat)
    (hacc : acc.2 < n) (hl : ∀ p ∈ l, p.1 + 1 < n) :
    (l.foldl (fun best p => if p.2.id > best.1 then (p.2.id, p.1 + 1) else best) acc).2 < n := by
  induction l generalizing acc with
  | nil => exact hacc
  | cons p l ih =>
    rw [List.foldl_cons]
    by_cases hp : p.2.id > acc.1
    · rw [if_pos hp]
      exact ih (p.2.id, p.1 + 1) (hl p (by simp)) (fun q hq => hl q (by simp [hq]))
    · rw [if_neg hp]
      exact ih acc hacc (fun q hq => hl q (by simp [hq]))

/-- The fallback max-id index is a valid index (v1). -/
theorem v1_firstMaxIdIdx_lt (ts : List V1.Task) (h : ts ≠ []) :
    V1.firstMaxIdIdx ts < ts.length := by
  cases ts with
  | nil => exact absurd rfl h
  | cons t rest =>
    rw [V1.firstMaxIdIdx]
    refine v1_maxFold_lt rest.enum (t.id, 0) (rest.length + 1) (by omega) ?_
    intro p hp
    have hget := List.mem_enum_iff_get?.mp hp
    rcases List.get?_eq_some.mp hget with ⟨hlt, -⟩
    omega

/-- The index selected by the reversed in-progress search is a valid index
(v3). -/
theorem v3_lastInProgressIdx_lt (ts : List V3.Task) (j : Nat)
    (h : V3.lastInProgressIdx ts = some j) : j < ts.length := by
  rw [V3.lastInProgressIdx] at h
  rcases Option.map_eq_some'.mp h with ⟨p, hp, hpj⟩
  rcases List.mem_getLast?_eq_getLast (by rw [hp]; rfl) with ⟨hne, rfl⟩
  have hmem : (ts.enum.filter (fun q => q.2.status = ("in-progress".data))).getLast hne
      ∈ ts.enum.filter (fun q => q.2.status = ("in-progress".data)) := List.getLast_mem hne
  have henum := List.mem_of_mem_filter hmem
  have hget := List.mem_enum_iff_get?.mp henum
  rcases List.get?_eq_some.mp hget with ⟨hlt, -⟩
  exact hpj ▸ hlt

/-- Evaluation of v1 `add_tool_result` on a non-empty tree and a
non-reporting tool: the dispatch target at index `i` gets one subtask
appended. -/
theorem v1_add_tool_result_eq (tr : V1.TaskTree) (tool inp res : Text)
    (hnz : ¬tr.tasks = []) (hnt : ¬tool = toText "report_task_update")
    (i : Nat) (t : V1.Task)
    (hi : (match V1.lastInProgressIdx tr.tasks with
           | some j => j
           | none => V1.firstMaxIdIdx tr.tasks) = i)
    (hget : tr.tasks.get? i = some t) :
    V1.add_tool_result tr tool inp res
      = { tr with tasks := tr.tasks.set i { t with subtasks := t.subtasks ++
          [{ id := natToText t.id ++ ('.' :: natToText (t.subtasks.length + 1)),
             tool := tool, input := V1.truncInput100 inp,
             result := V1.truncResult200 res }] } } := by
  rw [V1.add_tool_result, if_neg hnt]
  simp only [if_neg hnz]
  rw [hi, hget]

/-- Evaluation of v3 `add_tool_result` on a non-empty tree and a
non-reporting tool. -/
theorem v3_add_tool_result_eq (tr : V3.TaskTree) (tool inp res : Text)
    (hnz : ¬tr.tasks = []) (hnt : ¬tool = ("task_manager".data))
    (i : Nat) (t : V3.Task)
    (hi : (match V3.lastInProgressIdx tr.tasks with
           | some j => j
           | none => tr.tasks.length - 1) = i)
    (hget : tr.tasks.get? i = some t) :
    V3.add_tool_result tr tool inp res
      = { tr with tasks := tr.tasks.set i { t with subtasks := t.subtasks ++
          [{ id := t.subtasks.length + 1, tool := tool,
             input := V3.truncInput200 inp, result := V3.truncResult500 res }] } } := by
  rw [V3.add_tool_result, if_neg hnt]
  simp only [if_neg hnz]
  rw [hi, hget]

/-- C10: `addToolResult` with a non-reporting tool on a non-empty tree is a
pure frame update in both implementations: the title and watermark are
untouched, the task count is unchanged, and exactly one task — the dispatch
target — receives exactly one appended subtask while every other task is
left exactly as it was. -/
theorem C10_frame :
    (∀ (tr : V1.TaskTree) (tool inp res : Text),
       tr.tasks ≠ [] → tool ≠ toText "report_task_update" →
       (V1.add_tool_result tr tool inp res).challenge_title = tr.challenge_title
       ∧ (V1.add_tool_result tr tool inp res).current_task_id = tr.current_task_id
       ∧ (V1.add_tool_result tr tool inp res).tasks.length = tr.tasks.length
       ∧ ∃ i, ∃ hi : i < tr.tasks.length, ∃ st : V1.Subtask,
           (V1.add_tool_result tr tool inp res).tasks
             = tr.tasks.set i { tr.tasks.get ⟨i, hi⟩ with
                 subtasks := (tr.tasks.get ⟨i, hi⟩).subtasks ++ [st] }
           ∧ ∀ j, j ≠ i →
               (V1.add_tool_result tr tool inp res).tasks.get? j = tr.tasks.get? j)
    ∧ (∀ (tr : V3.TaskTree) (tool inp res : Text),
       tr.tasks ≠ [] → tool ≠ ("task_manager".data) →
       (V3.add_tool_result tr tool inp res).challenge_title = tr.challenge_title
       ∧ (V3.add_tool_result tr tool inp res).current_task_id = tr.current_task_id
       ∧ (V3.add_tool_result tr tool inp res).tasks.length = tr.tasks.length
       ∧ ∃ i, ∃ hi : i < tr.tasks.length, ∃ st : V3.Subtask,
           (V3.add_tool_result tr tool inp res).tasks
             = tr.tasks.set i { tr.tasks.get ⟨i, hi⟩ with
                 subtasks := (tr.tasks.get ⟨i, hi⟩).subtasks ++ [st] }
           ∧ ∀ j, j ≠ i →
               (V3.add_tool_result tr tool inp res).tasks.get? j = tr.tasks.get? j) := by
  constructor
  · intro tr tool inp res hnz hnt
    have hi : (match V1.lastInProgressIdx tr.tasks with
        | some j => j
        | none => V1.firstMaxIdIdx tr.tasks) < tr.tasks.length := by
      cases hlip : V1.lastInProgressIdx tr.tasks with
      | some j => exact v1_lastInProgressIdx_lt tr.tasks j hlip
      | none => exact v1_firstMaxIdIdx_lt tr.tasks hnz
    have heq := v1_add_tool_result_eq tr tool inp res hnz hnt _
      (tr.tasks.get ⟨_, hi⟩) rfl (List.get?_eq_get hi)
    rw [heq]
    refine ⟨rfl, rfl, List.length_set _ _ _, _, hi, _, rfl, fun j hj => ?_⟩
    exact List.get?_set_ne _ _ (fun h => hj h.symm)
  · intro tr tool inp res hnz hnt
    have hi : (match V3.lastInProgressIdx tr.tasks with
        | some j => j
        | none => tr.tasks.length - 1) < tr.tasks.length := by
      cases hlip : V3.lastInProgressIdx tr.tasks with
      | some j => exact v3_lastInProgressIdx_lt tr.tasks j hlip
      | none =>
        have hpos := List.length_pos.mpr hnz
        show tr.tasks.length - 1 < tr.tasks.length
        omega
    have heq := v3_add_tool_result_eq tr tool inp res hnz hnt _
      (tr.tasks.get ⟨_, hi⟩) rfl (List.get?_eq_get hi)
    rw [heq]
    refine ⟨rfl, rfl, List.length_set _ _ _, _, hi, _, rfl, fun j hj => ?_⟩
    exact List.get?_set_ne _ _ (fun h => hj h.symm)

/-- C10 witness: the frame property instantiated on a two-task v1 tree and
the shell tool. -/
theorem C10_frame_witness :
    (V1.add_tool_result sampleV1Tree ("shell".data) ("ls".data) ("flag.txt".data)).challenge_title
      = sampleV1Tree.challenge_title
    ∧ (V1.add_tool_result sampleV1Tree ("shell".data) ("ls".data)
        ("flag.txt".data)).current_task_id = sampleV1Tree.current_task_id
    ∧ (V1.add_tool_result sampleV1Tree ("shell".data) ("ls".data) ("flag.txt".data)).tasks.length
      = sampleV1Tree.tasks.length
    ∧ ∃ i, ∃ hi : i < sampleV1Tree.tasks.length, ∃ st : V1.Subtask,
        (V1.add_tool_result sampleV1Tree ("shell".data) ("ls".data) ("flag.txt".data)).tasks
          = sampleV1Tree.tasks.set i { sampleV1Tree.tasks.get ⟨i, hi⟩ with
              subtasks := (sampleV1Tree.tasks.get ⟨i, hi⟩).subtasks ++ [st] }
        ∧ ∀ j, j ≠ i →
            (V1.add_tool_result sampleV1Tree ("shell".data) ("ls".data)
              ("flag.txt".data)).tasks.get? j = sampleV1Tree.tasks.get? j :=
  C10_frame.1 sampleV1Tree ("shell".data) ("ls".data) ("flag.txt".data)
    (by decide) (by decide)
